import Mathlib

/-!
# aekazoe: an eventually consistent counter over a pull task queue

A shallow embedding of `main.go`.  Every method of `kazoeImpl` becomes a function
that takes the state of the App Engine task queue (`World`) and returns its Go
results together with the next state.

Conventions of the embedding

* a Go `string` / `[]byte` is a `String` (one character per byte), so the
  conversions `[]byte(id)` and `string(task.Payload)` are the identity;
* a Go `map[K]int` is an association list `GoMap K` with at most one entry per key;
  `for k, v := range m` visits the entries in an order chosen by the runtime, which
  is an explicit `RangeOrder` argument;
* a Go result tuple `(m, closer, err)` is a record of `Option`s, `none` being `nil`;
* a pointer argument that may be nil is an `Option`, and a call that can panic ends
  in an `Outcome`;
* the closure `closer` is the record of what it captured (`Closer`), run by
  `Closer.call`;
* `log.Debugf` / `log.Warningf` have no effect on the state and are left out.
-/

namespace aekazoe

/-! ## Go values -/

/-- A Go `error` value, by origin: `errors.New`, the task queue service,
`*strconv.NumError`, `datastore.DecodeKey`. -/
inductive GoError where
  | New (text : String)
  | Queue (text : String)
  | Num (fn : String) (num : String) (why : String)
  | Decode (text : String)
deriving DecidableEq, Repr

/-- How a Go call ends: it returns its results, or it panics at run time. -/
inductive Outcome (α : Type) where
  | returned (results : α)
  | panicked (reason : String)
deriving DecidableEq, Repr

/-- The run-time panic of a method call or field read through a nil pointer. -/
def nilDereference : String := "invalid memory address or nil pointer dereference"

/-- `var ErrEmptyQueueName = errors.New("QueueName is empty")`. -/
def ErrEmptyQueueName : GoError := GoError.New "QueueName is empty"

/-- A Go `map[K]int`: the list of its entries, one per key. -/
abbrev GoMap (κ : Type) := List (κ × Int)

/-- The two-valued read `v, ok := m[key]`. -/
def GoMap.lookup {κ : Type} [DecidableEq κ] : GoMap κ → κ → Option Int
  | [], _ => none
  | (k, v) :: m, key => if key = k then some v else GoMap.lookup m key

/-- The assignment `m[key] = val`: replaces the entry of `key` or adds one. -/
def GoMap.assign {κ : Type} [DecidableEq κ] : GoMap κ → κ → Int → GoMap κ
  | [], key, val => [(key, val)]
  | (k, v) :: m, key, val =>
    if key = k then (k, val) :: m else (k, v) :: GoMap.assign m key val

/-- The one-valued read `m[key]`, the zero value when the key is absent. -/
def GoMap.index {κ : Type} [DecidableEq κ] (m : GoMap κ) (key : κ) : Int :=
  (GoMap.lookup m key).getD 0

/-- The builtin `len(m)`. -/
def GoMap.len {κ : Type} (m : GoMap κ) : Nat := m.length

/-- The order in which one `range` statement visits the entries of a string-keyed
map: some rearrangement of them, chosen by the Go runtime. -/
structure RangeOrder where
  visit : GoMap String → List (String × Int)
  perm : ∀ m, (visit m).Perm m

/-- The runtime visits the entries in insertion order. -/
def RangeOrder.inOrder : RangeOrder := ⟨fun m => m, fun _ => List.Perm.refl _⟩

/-- The runtime visits the entries in reverse insertion order. -/
def RangeOrder.backwards : RangeOrder := ⟨fun m => m.reverse, fun m => List.reverse_perm m⟩

/-- Two's complement wrap of an integer to `bits` bits (a Go conversion such as
`int64(un)`, or signed negation). -/
def wrapInt (bits : Nat) (x : Int) : Int :=
  (x + 2 ^ (bits - 1)) % 2 ^ bits - 2 ^ (bits - 1)

/-! ## strconv (Go standard library), base 10 -/

namespace strconv

/-- Modelled from the spec: the repository calls Go's `strconv`, which is not part of
its sources.  The value of a decimal digit byte (`ch - '0'` when that is at most 9). -/
def digit (ch : Char) : Option Nat :=
  if 48 ≤ ch.toNat ∧ ch.toNat ≤ 57 then some (ch.toNat - 48) else none

/-- Modelled from the spec: the digit byte of `d < 10`. -/
def digitChar (d : Nat) : Char := Char.ofNat (48 + d)

/-- Modelled from the spec: the accumulation loop of `ParseUint`,
`n = n*10 + digit`; `none` when a byte is not a decimal digit. -/
def parseDigits : List Char → Nat → Option Nat
  | [], n => some n
  | ch :: cs, n =>
    match digit ch with
    | none => none
    | some d => parseDigits cs (n * 10 + d)

/-- Modelled from the spec: `strconv.ErrSyntax`. -/
def ErrSyntax : String := "invalid syntax"

/-- Modelled from the spec: `strconv.ErrRange`. -/
def ErrRange : String := "value out of range"

/-- Modelled from the spec: whether an error is a `*NumError` whose `Err` is
`ErrRange`. -/
def isErrRange : GoError → Bool
  | GoError.Num _ _ why => decide (why = ErrRange)
  | _ => false

/-- Modelled from the spec: `strconv.ParseUint(s, 10, bitSize)` on a platform whose
`int` has `intSize` bits (`bitSize = 0` means `int`), with both of its results.  An
empty string or a non-digit byte is `ErrSyntax`; a value that does not fit `bitSize`
bits is `ErrRange`, returned with the largest value that fits. -/
def ParseUint (intSize : Nat) (s : List Char) (bitSize : Nat) : Nat × Option GoError :=
  let bits := if bitSize = 0 then intSize else bitSize
  if s = [] then (0, some (GoError.Num "ParseUint" (String.mk s) ErrSyntax))
  else
    match parseDigits s 0 with
    | none => (0, some (GoError.Num "ParseUint" (String.mk s) ErrSyntax))
    | some n =>
      if 2 ^ bits ≤ n then
        (2 ^ bits - 1, some (GoError.Num "ParseUint" (String.mk s) ErrRange))
      else (n, none)

/-- Modelled from the spec: `strconv.ParseInt(s, 10, bitSize)` on a platform whose
`int` has `intSize` bits.  An optional sign, then `ParseUint`; the magnitude may be at
most `2^(bitSize-1) - 1`, or `2^(bitSize-1)` after a minus sign.  The value returned
beside an error is left out: no caller reads it. -/
def ParseInt (intSize : Nat) (s : String) (bitSize : Nat) : Except GoError Int :=
  match s.data with
  | [] => .error (GoError.Num "ParseInt" s ErrSyntax)
  | c :: cs =>
    let neg := decide (c = '-')
    let body := if c = '+' ∨ c = '-' then cs else c :: cs
    match ParseUint intSize body bitSize with
    | (un, err) =>
      if err.isSome ∧ (err.map isErrRange).getD false = false then
        .error (GoError.Num "ParseInt" s ErrSyntax)
      else
        let bits := if bitSize = 0 then intSize else bitSize
        let cutoff := 2 ^ (bits - 1)
        if neg = false ∧ cutoff ≤ un then .error (GoError.Num "ParseInt" s ErrRange)
        else if neg = true ∧ cutoff < un then .error (GoError.Num "ParseInt" s ErrRange)
        else
          let n := wrapInt 64 (un : Int)
          .ok (if neg then wrapInt 64 (-n) else n)

/-- Modelled from the spec: `strconv.Atoi(s)`, that is `ParseInt(s, 10, 0)` converted
to `int`, with the function name of the error replaced. -/
def Atoi (intSize : Nat) (s : String) : Except GoError Int :=
  match ParseInt intSize s 0 with
  | .error (GoError.Num _ num why) => .error (GoError.Num "Atoi" num why)
  | .error e => .error e
  | .ok i64 => .ok (wrapInt intSize i64)

/-- Modelled from the spec: the base 10 loop of `formatBits`, which fills its buffer
from the right: `for u >= 10 { q := u / 10; a[i] = u - q*10 + '0'; u = q }`, then the
leading digit.  `room` is the number of bytes left in the buffer besides one. -/
def formatLoop : Nat → Nat → List Char → List Char
  | 0, u, acc => digitChar u :: acc
  | room + 1, u, acc =>
    if 10 ≤ u then formatLoop room (u / 10) (digitChar (u % 10) :: acc)
    else digitChar u :: acc

/-- Modelled from the spec: the digits that `formatBits` writes in base 10, most
significant first, into its buffer `var a [64 + 1]byte`. -/
def formatBits (u : Nat) : List Char := formatLoop 64 u []

/-- Modelled from the spec: `strconv.FormatInt(i, 10)`: a minus sign for a negative
value, then the digits of the magnitude. -/
def FormatInt (i : Int) : String :=
  if i < 0 then String.mk ('-' :: formatBits i.natAbs) else String.mk (formatBits i.natAbs)

/-- Modelled from the spec: `strconv.Itoa(i)` is `FormatInt(int64(i), 10)`. -/
def Itoa (i : Int) : String := FormatInt i

end strconv

/-! ## The task queue collaborator -/

namespace taskqueue

/-- A `taskqueue.Task`, with the fields the program sets or reads.  `Name` is the
identity of the task inside its queue; the service assigns it on `Add`. -/
structure Task where
  Name : Nat
  Payload : String
  Tag : String
  Method : String
deriving DecidableEq, Repr

/-- A task held by the service: the queue it is in and whether it is under a lease
(invisible to `Lease`). -/
structure Entry where
  queue : String
  task : Task
  leased : Bool
deriving DecidableEq, Repr

end taskqueue

open taskqueue in
/-- The state of the task queue service: the stored tasks in arrival order, the next
fresh task name, whether the service is refusing calls, and how many calls it has
received. -/
structure World where
  entries : List Entry
  nextName : Nat
  unavailable : Bool
  calls : Nat
deriving DecidableEq, Repr

namespace taskqueue

/-- Modelled from the spec: the `QueueUnavailableError` of section 7, which every call
returns while the service is unavailable. -/
def ErrUnavailable : GoError := GoError.Queue "TRANSIENT_ERROR"

/-- Modelled from the spec: the `NotFoundError` of section 4.3, returned by
`DeleteMulti` when a task is no longer in the queue. -/
def ErrUnknownTask : GoError := GoError.Queue "UNKNOWN_TASK"

/-- Modelled from the spec: `taskqueue.Purge(c, queueName)`, the full-queue purge of
section 6: every task of the queue is discarded, leased or not. -/
def Purge (queueName : String) (w : World) : Option GoError × World :=
  if w.unavailable then (some ErrUnavailable, { w with calls := w.calls + 1 })
  else (none, { w with entries := w.entries.filter (fun e => decide (e.queue ≠ queueName)),
                       calls := w.calls + 1 })

/-- Modelled from the spec: `taskqueue.Add(c, t, queueName)`, the durable enqueue of
section 6: the task is stored at the end of the queue under a fresh name, not
leased. -/
def Add (t : Task) (queueName : String) (w : World) : Option GoError × World :=
  if w.unavailable then (some ErrUnavailable, { w with calls := w.calls + 1 })
  else (none, { w with entries := w.entries ++ [⟨queueName, { t with Name := w.nextName }, false⟩],
                       nextName := w.nextName + 1,
                       calls := w.calls + 1 })

/-- Modelled from the spec: the scan of `Lease`: the first `maxTasks` tasks of the queue that are not under a
lease are returned and put under a lease; everything else is left as it is. -/
def leaseScan (queueName : String) : Nat → List Entry → List Task × List Entry
  | _, [] => ([], [])
  | 0, es => ([], es)
  | n + 1, e :: es =>
    if e.queue = queueName ∧ e.leased = false then
      ((e.task :: (leaseScan queueName n es).1),
        ({ e with leased := true } :: (leaseScan queueName n es).2))
    else
      ((leaseScan queueName (n + 1) es).1, (e :: (leaseScan queueName (n + 1) es).2))

/-- Modelled from the spec: `taskqueue.Lease(c, maxTasks, queueName, leaseTime)`, the
batched pull lease of section 6.  The passage of time (lease expiry after
`leaseTime` seconds) is not part of the state. -/
def Lease (maxTasks : Nat) (queueName : String) (_leaseTime : Nat) (w : World) :
    (List Task × Option GoError) × World :=
  if w.unavailable then (([], some ErrUnavailable), { w with calls := w.calls + 1 })
  else (((leaseScan queueName maxTasks w.entries).1, none),
        { w with entries := (leaseScan queueName maxTasks w.entries).2,
                 calls := w.calls + 1 })

/-- Modelled from the spec: a task with this name is stored in the queue. -/
def stored (queueName : String) (es : List Entry) (t : Task) : Bool :=
  es.any (fun e => decide (e.queue = queueName ∧ e.task.Name = t.Name))

/-- Modelled from the spec: `taskqueue.DeleteMulti(c, tasks, queueName)`, the batched
delete by identity of section 6: every stored task of the queue whose name is the
name of one of `tasks` is removed; a task that is not stored makes the call return
an error. -/
def DeleteMulti (tasks : List Task) (queueName : String) (w : World) : Option GoError × World :=
  if w.unavailable then (some ErrUnavailable, { w with calls := w.calls + 1 })
  else
    ((if tasks.all (stored queueName w.entries) then none else some ErrUnknownTask),
     { w with entries := w.entries.filter
                (fun e => decide (¬ (e.queue = queueName ∧ e.task.Name ∈ tasks.map Task.Name))),
              calls := w.calls + 1 })

end taskqueue

/-! ## The program -/

/-- The `type kazoeImpl struct`. -/
structure kazoeImpl where
  QueueName : String
deriving DecidableEq, Repr

/-- What the closure `closer` of `CollectDeltaByString` captured: the leased `tasks`
(and the receiver `kazoe`, a pointer, whose fields are read when the closure runs). -/
structure Closer where
  tasks : List taskqueue.Task
deriving DecidableEq, Repr

/-- The results `(map, func() error, error)` of a collector. -/
structure Collected (κ : Type) where
  deltaMap : Option (GoMap κ)
  closer : Option Closer
  err : Option GoError

/-- The `func New(queueName string) (Kazoe, error)`. -/
def New (queueName : String) : Option kazoeImpl × Option GoError :=
  if queueName = "" then (none, some ErrEmptyQueueName)
  else (some { QueueName := queueName }, none)

/-- The method `PurgeAsyncCount`. -/
def PurgeAsyncCount (kazoe : kazoeImpl) (w : World) : Option GoError × World :=
  if kazoe.QueueName = "" then (some ErrEmptyQueueName, w)
  else
    match taskqueue.Purge kazoe.QueueName w with
    | (some err, w1) => (some err, w1)
    | (none, w1) => (none, w1)

/-- The method `incrementAsync`. -/
def incrementAsync (kazoe : kazoeImpl) (id : String) (w : World) : Option GoError × World :=
  if kazoe.QueueName = "" then (some ErrEmptyQueueName, w)
  else
    let t : taskqueue.Task := { Name := 0, Payload := id, Tag := "++", Method := "PULL" }
    match taskqueue.Add t kazoe.QueueName w with
    | (some err, w1) => (some err, w1)
    | (none, w1) => (none, w1)

/-- The method `IncrementAsyncByString`. -/
def IncrementAsyncByString (kazoe : kazoeImpl) (id : String) (w : World) :
    Option GoError × World :=
  incrementAsync kazoe id w

/-- The method `IncrementAsyncByInt`. -/
def IncrementAsyncByInt (kazoe : kazoeImpl) (id : Int) (w : World) : Option GoError × World :=
  incrementAsync kazoe (strconv.Itoa id) w

/-- The method `IncrementAsyncByInt64`. -/
def IncrementAsyncByInt64 (kazoe : kazoeImpl) (id : Int) (w : World) : Option GoError × World :=
  incrementAsync kazoe (strconv.FormatInt id) w

/-- The method `IncrementAsyncByKey`.  `key` is a `*datastore.Key`, `none` being the
nil pointer, and `Encode` is `(*datastore.Key).Encode` on a key that is not nil.  The
argument `[]byte(key.Encode())` is evaluated before `incrementAsync` is entered, so a
nil key panics there, before the queue name is looked at. -/
def IncrementAsyncByKey {κ : Type} (Encode : κ → String) (kazoe : kazoeImpl)
    (key : Option κ) (w : World) : Outcome (Option GoError) × World :=
  match key with
  | none => (Outcome.panicked nilDereference, w)
  | some k =>
    match incrementAsync kazoe (Encode k) w with
    | (err, w1) => (Outcome.returned err, w1)

/-- The method `decrementAsync`. -/
def decrementAsync (kazoe : kazoeImpl) (id : String) (w : World) : Option GoError × World :=
  if kazoe.QueueName = "" then (some ErrEmptyQueueName, w)
  else
    let t : taskqueue.Task := { Name := 0, Payload := id, Tag := "--", Method := "PULL" }
    match taskqueue.Add t kazoe.QueueName w with
    | (some err, w1) => (some err, w1)
    | (none, w1) => (none, w1)

/-- The method `DecrementAsyncByString`. -/
def DecrementAsyncByString (kazoe : kazoeImpl) (id : String) (w : World) :
    Option GoError × World :=
  decrementAsync kazoe id w

/-- The method `DecrementAsyncByInt`. -/
def DecrementAsyncByInt (kazoe : kazoeImpl) (id : Int) (w : World) : Option GoError × World :=
  decrementAsync kazoe (strconv.Itoa id) w

/-- The method `DecrementAsyncByInt64`. -/
def DecrementAsyncByInt64 (kazoe : kazoeImpl) (id : Int) (w : World) : Option GoError × World :=
  decrementAsync kazoe (strconv.FormatInt id) w

/-- The method `DecrementAsyncByKey`.  `key` is a `*datastore.Key`, `none` being the
nil pointer, and `Encode` is `(*datastore.Key).Encode` on a key that is not nil.  The
argument `[]byte(key.Encode())` is evaluated before `decrementAsync` is entered, so a
nil key panics there, before the queue name is looked at. -/
def DecrementAsyncByKey {κ : Type} (Encode : κ → String) (kazoe : kazoeImpl)
    (key : Option κ) (w : World) : Outcome (Option GoError) × World :=
  match key with
  | none => (Outcome.panicked nilDereference, w)
  | some k =>
    match decrementAsync kazoe (Encode k) w with
    | (err, w1) => (Outcome.returned err, w1)

/-- One round of the loop `for _, task := range tasks` of `CollectDeltaByString`. -/
def collectStep (deltaMap : GoMap String) (task : taskqueue.Task) : GoMap String :=
  let tagID := task.Payload
  if task.Tag = "++" then
    match GoMap.lookup deltaMap tagID with
    | some v => GoMap.assign deltaMap tagID (v + 1)
    | none => GoMap.assign deltaMap tagID 1
  else if task.Tag = "--" then
    match GoMap.lookup deltaMap tagID with
    | some v => GoMap.assign deltaMap tagID (v + -1)
    | none => GoMap.assign deltaMap tagID (-1)
  else deltaMap

/-- The loop of `CollectDeltaByString` from `deltaMap := map[string]int{}`. -/
def aggregate (tasks : List taskqueue.Task) : GoMap String :=
  tasks.foldl collectStep []

/-- The body of the closure `closer`, run against the receiver as it is at that time. -/
def Closer.call (cl : Closer) (kazoe : kazoeImpl) (w : World) : Option GoError × World :=
  if kazoe.QueueName = "" then (some ErrEmptyQueueName, w)
  else
    match taskqueue.DeleteMulti cl.tasks kazoe.QueueName w with
    | (some err, w1) => (some err, w1)
    | (none, w1) => (none, w1)

/-- The method `CollectDeltaByString`. -/
def CollectDeltaByString (kazoe : kazoeImpl) (w : World) : Collected String × World :=
  if kazoe.QueueName = "" then (⟨none, none, some ErrEmptyQueueName⟩, w)
  else
    match taskqueue.Lease 1000 kazoe.QueueName (10 * 60) w with
    | ((_, some err), w1) => (⟨none, none, some err⟩, w1)
    | ((tasks, none), w1) => (⟨some (aggregate tasks), some ⟨tasks⟩, none⟩, w1)

/-- The loop `for k, v := range deltaMap` shared by the typed collectors: each key is
decoded by `decode` and stored with `store`; the first failure ends the loop. -/
def rekey {κ : Type} (decode : String → Except GoError κ)
    (store : GoMap κ → κ → Int → GoMap κ) :
    List (String × Int) → GoMap κ → Except GoError (GoMap κ)
  | [], newDeltaMap => .ok newDeltaMap
  | (k, v) :: rest, newDeltaMap =>
    match decode k with
    | .error err => .error err
    | .ok key => rekey decode store rest (store newDeltaMap key v)

/-- The common shape of `CollectDeltaByInt`, `CollectDeltaByInt64` and
`CollectDeltaByKey`. -/
def collectTyped {κ : Type} (decode : String → Except GoError κ)
    (store : GoMap κ → κ → Int → GoMap κ) (ro : RangeOrder) (kazoe : kazoeImpl) (w : World) :
    Collected κ × World :=
  match CollectDeltaByString kazoe w with
  | (⟨_, _, some err⟩, w1) => (⟨none, none, some err⟩, w1)
  | (⟨deltaMap, closer, none⟩, w1) =>
    match rekey decode store (ro.visit (deltaMap.getD [])) [] with
    | .error err => (⟨none, none, some err⟩, w1)
    | .ok newDeltaMap => (⟨some newDeltaMap, closer, none⟩, w1)

/-- The method `CollectDeltaByInt`, on a platform whose `int` has `intSize` bits. -/
def CollectDeltaByInt (intSize : Nat) (ro : RangeOrder) (kazoe : kazoeImpl) (w : World) :
    Collected Int × World :=
  collectTyped (strconv.Atoi intSize) GoMap.assign ro kazoe w

/-- The method `CollectDeltaByInt64`. -/
def CollectDeltaByInt64 (intSize : Nat) (ro : RangeOrder) (kazoe : kazoeImpl) (w : World) :
    Collected Int × World :=
  collectTyped (fun k => strconv.ParseInt intSize k 64) GoMap.assign ro kazoe w

/-- The method `CollectDeltaByKey`; `DecodeKey` is `datastore.DecodeKey`.  The map is
keyed by pointer and every decoded key is a fresh pointer, so an assignment always
adds an entry. -/
def CollectDeltaByKey {κ : Type} (DecodeKey : String → Except GoError κ) (ro : RangeOrder)
    (kazoe : kazoeImpl) (w : World) : Collected κ × World :=
  collectTyped DecodeKey (fun m key v => m ++ [(key, v)]) ro kazoe w

/-! ## Reference notions, in the words of the specification -/

/-- The number of tasks of a batch with payload `id` and tag `tag`. -/
def specCount (tasks : List taskqueue.Task) (id : String) (tag : String) : Nat :=
  tasks.countP (fun t => decide (t.Payload = id ∧ t.Tag = tag))

/-- The reference aggregate: the count of `++` messages for `id` minus the count of
`--` messages for `id` within the batch. -/
def specDelta (tasks : List taskqueue.Task) (id : String) : Int :=
  (specCount tasks id "++" : Int) - (specCount tasks id "--" : Int)

/-- The number of observed messages for `id`: those tagged `++` or `--`. -/
def specObserved (tasks : List taskqueue.Task) (id : String) : Nat :=
  specCount tasks id "++" + specCount tasks id "--"

/-- The number of tasks of a batch tagged `tag` whose payload `strconv.Atoi` converts
to the integer `n`. -/
def specCountInt (intSize : Nat) (tasks : List taskqueue.Task) (n : Int) (tag : String) : Nat :=
  tasks.countP (fun t =>
    match strconv.Atoi intSize t.Payload with
    | .ok k => decide (k = n ∧ t.Tag = tag)
    | .error _ => false)

/-- The tasks of a queue that `Lease` can see (not under a lease), in queue order. -/
def visible (queueName : String) (es : List taskqueue.Entry) : List taskqueue.Task :=
  (es.filter (fun e => decide (e.queue = queueName ∧ e.leased = false))).map taskqueue.Entry.task

/-- The invariant of the queue service: task names are distinct and below the next
fresh name. -/
def World.wellFormed (w : World) : Prop :=
  (w.entries.map (fun e => e.task.Name)).Nodup ∧ ∀ e ∈ w.entries, e.task.Name < w.nextName

instance (w : World) : Decidable w.wellFormed := by
  unfold World.wellFormed
  exact inferInstance

/-- A sequence of emissions for one identifier: `true` is `IncrementAsyncByString`,
`false` is `DecrementAsyncByString`. -/
def emitAll (kazoe : kazoeImpl) (id : String) : List Bool → World → World
  | [], w => w
  | true :: ops, w => emitAll kazoe id ops (IncrementAsyncByString kazoe id w).2
  | false :: ops, w => emitAll kazoe id ops (DecrementAsyncByString kazoe id w).2

/-- The full drain of the specification: `CollectDeltaByString` and its commit action
are repeated until the returned map is empty.  The result is the list of the maps
returned, the last one being the empty one; `none` when a call fails or the rounds
allowed by `fuel` do not suffice. -/
def drain : Nat → kazoeImpl → World → Option (List (GoMap String)) × World
  | 0, _, w => (none, w)
  | fuel + 1, kazoe, w =>
    match CollectDeltaByString kazoe w with
    | (⟨some deltaMap, some closer, none⟩, w1) =>
      match closer.call kazoe w1 with
      | (none, w2) =>
        if GoMap.len deltaMap = 0 then (some [deltaMap], w2)
        else
          match drain fuel kazoe w2 with
          | (some ms, w3) => (some (deltaMap :: ms), w3)
          | (none, w3) => (none, w3)
      | (some _, w2) => (none, w2)
    | (_, w1) => (none, w1)

/-! ## Example states -/

/-- The instance `New("foobar")` of the tests. -/
def exampleKazoe : kazoeImpl := { QueueName := "foobar" }

/-- A task queue service with no task. -/
def emptyWorld : World := { entries := [], nextName := 0, unavailable := false, calls := 0 }

/-- The queue of `TestKazoe_IncrementAsyncByString` before its first collect:
increments of `a`, `a` and `b`. -/
def testWorld : World :=
  (IncrementAsyncByString exampleKazoe "b"
    (IncrementAsyncByString exampleKazoe "a"
      (IncrementAsyncByString exampleKazoe "a" emptyWorld).2).2).2

/-- The `i`-th increment of `a`, as stored. -/
def incrementOfA (i : Nat) : taskqueue.Task :=
  { Name := i, Payload := "a", Tag := "++", Method := "PULL" }

/-- A backlog of 1001 increments of `a` in the queue `foobar`. -/
def bigWorld : World :=
  { entries := (List.range 1001).map (fun i => ⟨"foobar", incrementOfA i, false⟩),
    nextName := 1001, unavailable := false, calls := 1001 }

/-- A task with a tag that is neither `++` nor `--`. -/
def oddTask : taskqueue.Task := { Name := 0, Payload := "a", Tag := "??", Method := "PULL" }

/-- The queue `foobar` holding `oddTask` and one increment of `a`. -/
def oddWorld : World :=
  { entries := [⟨"foobar", oddTask, false⟩, ⟨"foobar", incrementOfA 1, false⟩],
    nextName := 2, unavailable := false, calls := 2 }

/-- The queue of `testWorld` with its tasks in another order. -/
def shuffledWorld : World :=
  { entries := [⟨"foobar", ⟨2, "b", "++", "PULL"⟩, false⟩,
                ⟨"foobar", ⟨0, "a", "++", "PULL"⟩, false⟩,
                ⟨"foobar", ⟨1, "a", "++", "PULL"⟩, false⟩],
    nextName := 3, unavailable := false, calls := 3 }

/-- The queue `foobar` after `IncrementAsyncByString(c, "1")` and
`IncrementAsyncByString(c, "01")`. -/
def collidingWorld : World :=
  (IncrementAsyncByString exampleKazoe "01"
    (IncrementAsyncByString exampleKazoe "1" emptyWorld).2).2

/-- The queue `foobar` after `IncrementAsyncByString(c, "7")` and
`IncrementAsyncByString(c, "seven")`. -/
def malformedWorld : World :=
  (IncrementAsyncByString exampleKazoe "seven"
    (IncrementAsyncByString exampleKazoe "7" emptyWorld).2).2

/-- The batch that the first collect of `testWorld` leases. -/
def testBatch : List taskqueue.Task :=
  [⟨0, "a", "++", "PULL"⟩, ⟨1, "a", "++", "PULL"⟩, ⟨2, "b", "++", "PULL"⟩]

/-- The state that the first collect of `testWorld` leaves: every task under a lease. -/
def testLeased : World :=
  { entries := testBatch.map (fun t => ⟨"foobar", t, true⟩),
    nextName := 3, unavailable := false, calls := 4 }

/-- The batch that the collect of `shuffledWorld` leases. -/
def shuffledBatch : List taskqueue.Task :=
  [⟨2, "b", "++", "PULL"⟩, ⟨0, "a", "++", "PULL"⟩, ⟨1, "a", "++", "PULL"⟩]

/-- The state that the collect of `shuffledWorld` leaves. -/
def shuffledLeased : World :=
  { entries := shuffledBatch.map (fun t => ⟨"foobar", t, true⟩),
    nextName := 3, unavailable := false, calls := 4 }

/-- The state that the collect of `oddWorld` leaves. -/
def oddLeased : World :=
  { entries := [⟨"foobar", oddTask, true⟩, ⟨"foobar", incrementOfA 1, true⟩],
    nextName := 2, unavailable := false, calls := 3 }

/-- The batch that the collect of `collidingWorld` leases. -/
def collidingBatch : List taskqueue.Task :=
  [⟨0, "1", "++", "PULL"⟩, ⟨1, "01", "++", "PULL"⟩]

/-- The state that the collect of `collidingWorld` leaves. -/
def collidingLeased : World :=
  { entries := collidingBatch.map (fun t => ⟨"foobar", t, true⟩),
    nextName := 2, unavailable := false, calls := 3 }

/-- The batch that the collect of `malformedWorld` leases. -/
def malformedBatch : List taskqueue.Task :=
  [⟨0, "7", "++", "PULL"⟩, ⟨1, "seven", "++", "PULL"⟩]

/-- The state that the collect of `malformedWorld` leaves. -/
def malformedLeased : World :=
  { entries := malformedBatch.map (fun t => ⟨"foobar", t, true⟩),
    nextName := 2, unavailable := false, calls := 3 }

/-- A stand-in for `(*datastore.Key).Encode` in examples: the key is its own
encoding. -/
def exampleEncode (key : String) : String := key

/-- A stand-in for `datastore.DecodeKey` in examples: the only encoded key is `7`. -/
def exampleDecodeKey (encoded : String) : Except GoError String :=
  if encoded = "7" then .ok "key seven" else .error (GoError.Decode "invalid key")

/-! ## Theorems -/

/-! ### Maps -/

theorem GoMap.lookup_assign {κ : Type} [DecidableEq κ] (m : GoMap κ) (k key : κ) (v : Int) :
    GoMap.lookup (GoMap.assign m k v) key = if key = k then some v else GoMap.lookup m key := by
  induction m with
  | nil => simp [GoMap.assign, GoMap.lookup]
  | cons e m ih =>
    obtain ⟨k0, v0⟩ := e
    by_cases hk : k = k0
    · subst hk
      by_cases hkey : key = k <;> simp [GoMap.assign, GoMap.lookup, hkey]
    · by_cases hkey : key = k0
      · subst hkey
        have : ¬ key = k := fun h => hk h.symm
        simp [GoMap.assign, GoMap.lookup, hk, this]
      · simp [GoMap.assign, GoMap.lookup, hk, hkey, ih]

/-! ### The aggregation loop -/

theorem lookup_collectStep (m : GoMap String) (t : taskqueue.Task) (id : String) :
    GoMap.lookup (collectStep m t) id =
      if t.Payload = id ∧ t.Tag = "++" then some ((GoMap.lookup m id).getD 0 + 1)
      else if t.Payload = id ∧ t.Tag = "--" then some ((GoMap.lookup m id).getD 0 - 1)
      else GoMap.lookup m id := by
  unfold collectStep
  by_cases hp : t.Tag = "++"
  · by_cases hid : t.Payload = id
    · subst hid
      cases h : GoMap.lookup m t.Payload <;> simp [hp, h, GoMap.lookup_assign]
    · have hid2 : ¬ id = t.Payload := fun h => hid h.symm
      cases h : GoMap.lookup m t.Payload <;> simp [hp, h, hid, hid2, GoMap.lookup_assign]
  · by_cases hm : t.Tag = "--"
    · by_cases hid : t.Payload = id
      · subst hid
        cases h : GoMap.lookup m t.Payload <;>
          simp [hp, hm, h, GoMap.lookup_assign, sub_eq_add_neg]
      · have hid2 : ¬ id = t.Payload := fun h => hid h.symm
        cases h : GoMap.lookup m t.Payload <;> simp [hp, hm, h, hid, hid2, GoMap.lookup_assign]
    · simp [hp, hm]

theorem specCount_cons (t : taskqueue.Task) (ts : List taskqueue.Task) (id tag : String) :
    specCount (t :: ts) id tag =
      specCount ts id tag + if t.Payload = id ∧ t.Tag = tag then 1 else 0 := by
  unfold specCount
  rw [List.countP_cons]
  by_cases h : t.Payload = id ∧ t.Tag = tag <;> simp [h]

theorem lookup_foldl_collectStep (ts : List taskqueue.Task) (m : GoMap String) (id : String) :
    GoMap.lookup (ts.foldl collectStep m) id =
      if specObserved ts id = 0 then GoMap.lookup m id
      else some ((GoMap.lookup m id).getD 0 + specDelta ts id) := by
  induction ts generalizing m with
  | nil => simp [specObserved, specCount]
  | cons t ts ih =>
    rw [List.foldl_cons, ih, lookup_collectStep]
    have hne : ("++" : String) ≠ "--" := by decide
    unfold specObserved specDelta
    rw [specCount_cons t ts id "++", specCount_cons t ts id "--"]
    by_cases hA : t.Payload = id ∧ t.Tag = "++"
    · have hB : ¬ (t.Payload = id ∧ t.Tag = "--") := by
        rintro ⟨_, h⟩
        exact hne (hA.2.symm.trans h)
      simp only [if_pos hA, if_neg hB]
      have h2 : ¬ (specCount ts id "++" + 1 + (specCount ts id "--" + 0) = 0) := by omega
      rw [if_neg h2]
      split_ifs with h1
      · have e1 : specCount ts id "++" = 0 := by omega
        have e2 : specCount ts id "--" = 0 := by omega
        simp [e1, e2]
      · simp only [Option.getD_some]
        congr 1
        push_cast
        ring
    · by_cases hB : t.Payload = id ∧ t.Tag = "--"
      · simp only [if_neg hA, if_pos hB]
        have h2 : ¬ (specCount ts id "++" + 0 + (specCount ts id "--" + 1) = 0) := by omega
        rw [if_neg h2]
        split_ifs with h1
        · have e1 : specCount ts id "++" = 0 := by omega
          have e2 : specCount ts id "--" = 0 := by omega
          simp [e1, e2, sub_eq_add_neg]
        · simp only [Option.getD_some]
          congr 1
          push_cast
          ring
      · simp only [if_neg hA, if_neg hB, add_zero]

/-- The map built by the loop of `CollectDeltaByString`, read at any identifier. -/
theorem lookup_aggregate (tasks : List taskqueue.Task) (id : String) :
    GoMap.lookup (aggregate tasks) id =
      if specObserved tasks id = 0 then none else some (specDelta tasks id) := by
  unfold aggregate
  rw [lookup_foldl_collectStep]
  simp [GoMap.lookup]

/-! ### The task queue -/

theorem visible_nil (q : String) : visible q [] = [] := rfl

theorem visible_cons (q : String) (e : taskqueue.Entry) (es : List taskqueue.Entry) :
    visible q (e :: es) =
      if e.queue = q ∧ e.leased = false then e.task :: visible q es else visible q es := by
  unfold visible
  by_cases h : e.queue = q ∧ e.leased = false
  · rw [if_pos h, List.filter_cons_of_pos (by simpa using h), List.map_cons]
  · rw [if_neg h, List.filter_cons_of_neg (by simpa using h)]

theorem visible_append (q : String) (es fs : List taskqueue.Entry) :
    visible q (es ++ fs) = visible q es ++ visible q fs := by
  unfold visible
  rw [List.filter_append, List.map_append]

theorem leaseScan_zero (q : String) (es : List taskqueue.Entry) :
    taskqueue.leaseScan q 0 es = ([], es) := by
  cases es <;> rfl

theorem leaseScan_fst (q : String) (n : Nat) (es : List taskqueue.Entry) :
    (taskqueue.leaseScan q n es).1 = (visible q es).take n := by
  induction es generalizing n with
  | nil => simp [taskqueue.leaseScan, visible_nil]
  | cons e es ih =>
    cases n with
    | zero => simp [leaseScan_zero]
    | succ n =>
      rw [visible_cons]
      by_cases h : e.queue = q ∧ e.leased = false
      · simp only [taskqueue.leaseScan, if_pos h, List.take_succ_cons, ih]
      · simp only [taskqueue.leaseScan, if_neg h, ih]

theorem leaseScan_snd_map (q : String) (n : Nat) (es : List taskqueue.Entry) :
    (taskqueue.leaseScan q n es).2.map (fun e => (e.queue, e.task)) =
      es.map (fun e => (e.queue, e.task)) := by
  induction es generalizing n with
  | nil => simp [taskqueue.leaseScan]
  | cons e es ih =>
    cases n with
    | zero => simp [leaseScan_zero]
    | succ n =>
      by_cases h : e.queue = q ∧ e.leased = false
      · simp only [taskqueue.leaseScan, if_pos h, List.map_cons, ih]
      · simp only [taskqueue.leaseScan, if_neg h, List.map_cons, ih]

/-- A filter that rejects every task leased by the scan cannot tell the queue after
the scan from the queue before it. -/
theorem leaseScan_filter (q : String) (keep : taskqueue.Entry → Bool) (n : Nat)
    (es : List taskqueue.Entry)
    (hdrop : ∀ t ∈ (taskqueue.leaseScan q n es).1, ∀ b, keep ⟨q, t, b⟩ = false) :
    (taskqueue.leaseScan q n es).2.filter keep = es.filter keep := by
  induction es generalizing n with
  | nil => simp [taskqueue.leaseScan]
  | cons e es ih =>
    cases n with
    | zero => simp [leaseScan_zero]
    | succ n =>
      by_cases h : e.queue = q ∧ e.leased = false
      · simp only [taskqueue.leaseScan, if_pos h] at hdrop ⊢
        have h1 : keep { e with leased := true } = false := by
          have := hdrop e.task (List.mem_cons_self _ _) true
          rw [← h.1] at this
          exact this
        have h2 : keep e = false := by
          have := hdrop e.task (List.mem_cons_self _ _) e.leased
          rw [← h.1] at this
          exact this
        rw [List.filter_cons_of_neg (by simp [h1]), List.filter_cons_of_neg (by simp [h2])]
        exact ih n (fun t ht b => hdrop t (List.mem_cons_of_mem _ ht) b)
      · simp only [taskqueue.leaseScan, if_neg h] at hdrop ⊢
        rw [List.filter_cons, List.filter_cons, ih (n + 1) hdrop]

theorem nodup_filter_not_mem_take {α : Type} [DecidableEq α] (l : List α) (n : Nat)
    (h : l.Nodup) : l.filter (fun x => decide (x ∉ l.take n)) = l.drop n := by
  induction l generalizing n with
  | nil => simp
  | cons x l ih =>
    cases n with
    | zero => simp
    | succ n =>
      rw [List.nodup_cons] at h
      rw [List.take_succ_cons, List.drop_succ_cons,
        List.filter_cons_of_neg (by simp), ← ih n h.2]
      apply List.filter_congr
      intro y hy
      have : y ≠ x := fun e => h.1 (e ▸ hy)
      simp [this]

theorem mem_visible (q : String) (es : List taskqueue.Entry) (t : taskqueue.Task) :
    t ∈ visible q es ↔ ∃ e ∈ es, e.queue = q ∧ e.leased = false ∧ e.task = t := by
  unfold visible
  simp only [List.mem_map, List.mem_filter, decide_eq_true_eq]
  constructor
  · rintro ⟨e, ⟨he, hq, hl⟩, rfl⟩
    exact ⟨e, he, hq, hl, rfl⟩
  · rintro ⟨e, he, hq, hl, rfl⟩
    exact ⟨e, ⟨he, hq, hl⟩, rfl⟩

theorem visible_nodup (q : String) (es : List taskqueue.Entry)
    (h : (es.map (fun e => e.task.Name)).Nodup) : (visible q es).Nodup := by
  unfold visible
  apply List.Nodup.of_map taskqueue.Task.Name
  rw [List.map_map]
  exact List.Nodup.sublist (List.Sublist.map _ (List.filter_sublist _)) h

theorem visible_filter_not_mem (q : String) (batch : List taskqueue.Task)
    (es : List taskqueue.Entry) :
    visible q (es.filter (fun e => decide (¬ (e.queue = q ∧ e.task ∈ batch)))) =
      (visible q es).filter (fun t => decide (t ∉ batch)) := by
  induction es with
  | nil => rfl
  | cons e es ih =>
    by_cases hq : e.queue = q
    · by_cases hb : e.task ∈ batch
      · rw [List.filter_cons_of_neg (by simp [hq, hb]), ih, visible_cons]
        by_cases hl : e.leased = false
        · rw [if_pos ⟨hq, hl⟩, List.filter_cons_of_neg (by simp [hb])]
        · rw [if_neg (fun h => hl h.2)]
      · rw [List.filter_cons_of_pos (by simp [hb]), visible_cons q e es, visible_cons, ih]
        by_cases hl : e.leased = false
        · rw [if_pos ⟨hq, hl⟩, if_pos ⟨hq, hl⟩, List.filter_cons_of_pos (by simp [hb])]
        · rw [if_neg (fun h => hl h.2), if_neg (fun h => hl h.2)]
    · rw [List.filter_cons_of_pos (by simp [hq]), visible_cons q e es, visible_cons, ih,
        if_neg (fun h => hq h.1), if_neg (fun h => hq h.1)]

/-- Deleting by name what the scan leased gives the same queue as deleting it from the
queue before the scan. -/
theorem deleteFilter_leaseScan (q : String) (n : Nat) (es : List taskqueue.Entry) :
    (taskqueue.leaseScan q n es).2.filter
        (fun e => decide (¬ (e.queue = q ∧
          e.task.Name ∈ (taskqueue.leaseScan q n es).1.map taskqueue.Task.Name))) =
      es.filter
        (fun e => decide (¬ (e.queue = q ∧
          e.task.Name ∈ (taskqueue.leaseScan q n es).1.map taskqueue.Task.Name))) := by
  apply leaseScan_filter
  intro t ht b
  simp only [decide_eq_false_iff_not, not_not, true_and]
  exact List.mem_map_of_mem _ ht

/-- With distinct names, deleting by name is deleting the tasks themselves. -/
theorem filter_name_eq_filter_task (q : String) (batch : List taskqueue.Task)
    (es : List taskqueue.Entry) (hnodup : (es.map (fun e => e.task.Name)).Nodup)
    (hsub : ∀ t ∈ batch, ∃ e ∈ es, e.task = t) :
    es.filter (fun e => decide (¬ (e.queue = q ∧ e.task.Name ∈ batch.map taskqueue.Task.Name))) =
      es.filter (fun e => decide (¬ (e.queue = q ∧ e.task ∈ batch))) := by
  apply List.filter_congr
  intro e he
  have key : e.task.Name ∈ batch.map taskqueue.Task.Name ↔ e.task ∈ batch := by
    constructor
    · intro h
      obtain ⟨t, ht, hname⟩ := List.mem_map.mp h
      obtain ⟨e1, he1, rfl⟩ := hsub t ht
      have : e1 = e := List.inj_on_of_nodup_map hnodup he1 he hname
      rw [← this]
      exact ht
    · intro h
      exact List.mem_map_of_mem _ h
  simp only [key]

theorem stored_leaseScan (q : String) (n : Nat) (es : List taskqueue.Entry)
    (t : taskqueue.Task) (ht : t ∈ (taskqueue.leaseScan q n es).1) :
    taskqueue.stored q (taskqueue.leaseScan q n es).2 t = true := by
  rw [leaseScan_fst] at ht
  obtain ⟨e, he, hq, _, rfl⟩ := (mem_visible q es t).mp (List.mem_of_mem_take ht)
  have hm : (e.queue, e.task) ∈ (taskqueue.leaseScan q n es).2.map (fun e => (e.queue, e.task)) := by
    rw [leaseScan_snd_map]
    exact List.mem_map_of_mem (fun e => (e.queue, e.task)) he
  obtain ⟨e1, he1, heq⟩ := List.mem_map.mp hm
  unfold taskqueue.stored
  rw [List.any_eq_true]
  refine ⟨e1, he1, ?_⟩
  simp only [Prod.mk.injEq] at heq
  simp [heq.1, heq.2, hq]

/-! ### Collect and commit -/

theorem CollectDeltaByString_ok (kazoe : kazoeImpl) (w : World)
    (hq : kazoe.QueueName ≠ "") (ha : w.unavailable = false) :
    CollectDeltaByString kazoe w =
      (⟨some (aggregate ((visible kazoe.QueueName w.entries).take 1000)),
        some ⟨(visible kazoe.QueueName w.entries).take 1000⟩, none⟩,
       { w with entries := (taskqueue.leaseScan kazoe.QueueName 1000 w.entries).2,
                calls := w.calls + 1 }) := by
  unfold CollectDeltaByString taskqueue.Lease
  simp only [if_neg hq, ha, Bool.false_eq_true, if_false, leaseScan_fst]

theorem CollectDeltaByString_inv (kazoe : kazoeImpl) (w w1 : World) (m : GoMap String)
    (cl : Closer) (h : CollectDeltaByString kazoe w = (⟨some m, some cl, none⟩, w1)) :
    kazoe.QueueName ≠ "" ∧ w.unavailable = false := by
  unfold CollectDeltaByString taskqueue.Lease at h
  by_cases hq : kazoe.QueueName = ""
  · simp [hq] at h
  · refine ⟨hq, ?_⟩
    cases ha : w.unavailable
    · rfl
    · simp [hq, ha] at h

/-- Running the closure right after the collect that returned it: the service accepts
the delete, and what is left is the queue as it was before the collect without the
leased tasks. -/
theorem Closer_call_after_collect (kazoe : kazoeImpl) (w : World)
    (hq : kazoe.QueueName ≠ "") (ha : w.unavailable = false) (hwf : w.wellFormed) :
    Closer.call ⟨(visible kazoe.QueueName w.entries).take 1000⟩ kazoe
        { w with entries := (taskqueue.leaseScan kazoe.QueueName 1000 w.entries).2,
                 calls := w.calls + 1 } =
      (none,
       { w with entries := w.entries.filter (fun e => decide (¬ (e.queue = kazoe.QueueName ∧
                    e.task ∈ (visible kazoe.QueueName w.entries).take 1000))),
                calls := w.calls + 1 + 1 }) := by
  have hall : ((visible kazoe.QueueName w.entries).take 1000).all
      (taskqueue.stored kazoe.QueueName
        (taskqueue.leaseScan kazoe.QueueName 1000 w.entries).2) = true := by
    rw [List.all_eq_true]
    intro t ht
    apply stored_leaseScan
    rw [leaseScan_fst]
    exact ht
  have hfil := deleteFilter_leaseScan kazoe.QueueName 1000 w.entries
  rw [leaseScan_fst] at hfil
  have hname := filter_name_eq_filter_task kazoe.QueueName
    ((visible kazoe.QueueName w.entries).take 1000) w.entries hwf.1
    (fun t ht => by
      obtain ⟨e, he, _, _, rfl⟩ :=
        (mem_visible kazoe.QueueName w.entries t).mp (List.mem_of_mem_take ht)
      exact ⟨e, he, rfl⟩)
  unfold Closer.call taskqueue.DeleteMulti
  simp only [if_neg hq, ha, Bool.false_eq_true, if_false, hall, if_true, hfil, hname]

theorem visible_after_commit (q : String) (es : List taskqueue.Entry)
    (hnodup : (es.map (fun e => e.task.Name)).Nodup) :
    visible q (es.filter (fun e => decide (¬ (e.queue = q ∧
        e.task ∈ (visible q es).take 1000)))) = (visible q es).drop 1000 := by
  rw [visible_filter_not_mem, nodup_filter_not_mem_take _ _ (visible_nodup q es hnodup)]

theorem visible_purged (q : String) (es : List taskqueue.Entry) :
    visible q (es.filter (fun e => decide (e.queue ≠ q))) = [] := by
  unfold visible
  rw [List.filter_filter, List.map_eq_nil_iff, List.filter_eq_nil_iff]
  intro e _
  simp only [Bool.and_eq_true, decide_eq_true_eq, not_and]
  intro h1 h2
  exact absurd h1.1 h2

theorem aggregate_nil : aggregate [] = [] := rfl

/-- A collect, its commit and the next collect, on a well-formed queue. -/
theorem collect_after_commit (kazoe : kazoeImpl) (w : World)
    (hq : kazoe.QueueName ≠ "") (ha : w.unavailable = false) (hwf : w.wellFormed) :
    (CollectDeltaByString kazoe
      (Closer.call ⟨(visible kazoe.QueueName w.entries).take 1000⟩ kazoe
        { w with entries := (taskqueue.leaseScan kazoe.QueueName 1000 w.entries).2,
                 calls := w.calls + 1 }).2).1 =
      ⟨some (aggregate (((visible kazoe.QueueName w.entries).drop 1000).take 1000)),
        some ⟨((visible kazoe.QueueName w.entries).drop 1000).take 1000⟩, none⟩ := by
  rw [Closer_call_after_collect kazoe w hq ha hwf]
  dsimp only
  rw [CollectDeltaByString_ok kazoe
    ⟨w.entries.filter (fun e => decide (¬ (e.queue = kazoe.QueueName ∧
        e.task ∈ (visible kazoe.QueueName w.entries).take 1000))),
      w.nextName, w.unavailable, w.calls + 1 + 1⟩ hq ha]
  simp only [visible_after_commit kazoe.QueueName w.entries hwf.1]

/-- A task with an unknown tag leaves the map of the loop as it is. -/
theorem collectStep_unknown (m : GoMap String) (t : taskqueue.Task)
    (h1 : t.Tag ≠ "++") (h2 : t.Tag ≠ "--") : collectStep m t = m := by
  unfold collectStep
  simp only [if_neg h1, if_neg h2]

theorem foldl_collectStep_filter (p : taskqueue.Task → Bool) (ts : List taskqueue.Task)
    (m : GoMap String)
    (h : ∀ t ∈ ts, p t = false → t.Tag ≠ "++" ∧ t.Tag ≠ "--") :
    (ts.filter p).foldl collectStep m = ts.foldl collectStep m := by
  induction ts generalizing m with
  | nil => rfl
  | cons t ts ih =>
    have ih1 := fun m => ih m (fun u hu => h u (List.mem_cons_of_mem _ hu))
    cases hp : p t
    · have := h t (List.mem_cons_self _ _) hp
      rw [List.filter_cons_of_neg (by simp [hp]), List.foldl_cons,
        collectStep_unknown m t this.1 this.2, ih1]
    · rw [List.filter_cons_of_pos hp, List.foldl_cons, List.foldl_cons, ih1]

theorem specCount_perm (ts us : List taskqueue.Task) (h : ts.Perm us) (id tag : String) :
    specCount ts id tag = specCount us id tag := by
  unfold specCount
  exact h.countP_eq _

theorem CollectDeltaByString_eq (kazoe : kazoeImpl) (w w1 : World) (m : GoMap String)
    (cl : Closer) (h : CollectDeltaByString kazoe w = (⟨some m, some cl, none⟩, w1)) :
    kazoe.QueueName ≠ "" ∧ w.unavailable = false ∧
    m = aggregate ((visible kazoe.QueueName w.entries).take 1000) ∧
    cl = ⟨(visible kazoe.QueueName w.entries).take 1000⟩ ∧
    w1 = { w with entries := (taskqueue.leaseScan kazoe.QueueName 1000 w.entries).2,
                  calls := w.calls + 1 } := by
  obtain ⟨hq, ha⟩ := CollectDeltaByString_inv kazoe w w1 m cl h
  rw [CollectDeltaByString_ok kazoe w hq ha] at h
  simp only [Prod.mk.injEq, Collected.mk.injEq, Option.some.injEq, and_true] at h
  exact ⟨hq, ha, h.1.1.symm, h.1.2.symm, h.2.symm⟩

theorem bigWorld_entries :
    bigWorld.entries = (List.range 1001).map (fun i => ⟨"foobar", incrementOfA i, false⟩) := by
  simp only [bigWorld]

theorem bigWorld_nextName : bigWorld.nextName = 1001 := by
  simp only [bigWorld]

theorem visible_bigWorld :
    visible "foobar" bigWorld.entries = (List.range 1001).map incrementOfA := by
  rw [bigWorld_entries]
  unfold visible
  rw [List.filter_map, List.map_map, List.filter_eq_self.mpr (by intro i _; simp)]
  exact List.map_congr_left (fun i _ => rfl)

theorem bigWorld_wellFormed : bigWorld.wellFormed := by
  unfold World.wellFormed
  rw [bigWorld_entries, bigWorld_nextName]
  constructor
  · rw [List.map_map]
    exact (List.nodup_range 1001).map (fun a b h => by simpa [incrementOfA] using h)
  · intro e he
    obtain ⟨i, hi, rfl⟩ := List.mem_map.mp he
    exact List.mem_range.mp hi

theorem drop_bigWorld :
    ((List.range 1001).map incrementOfA).drop 1000 = [incrementOfA 1000] := by
  rw [List.range_succ, List.map_append, List.drop_left' (by simp)]
  rfl

/-! ### The claims about collect and commit -/

/-- C1: the map returned by `CollectDeltaByString` is the reference aggregate of the
batch it leased (the first 1000 visible tasks of the queue).  Read at any identifier
it gives the number of `++` tasks minus the number of `--` tasks of the batch with
that payload; an identifier with no observed message is absent from the map, and an
identifier with one is present. -/
theorem C1_collect_returns_reference_aggregate (kazoe : kazoeImpl) (w w1 : World)
    (m : GoMap String) (cl : Closer)
    (h : CollectDeltaByString kazoe w = (⟨some m, some cl, none⟩, w1)) :
    cl.tasks = (visible kazoe.QueueName w.entries).take 1000 ∧
    (∀ id, GoMap.index m id = specDelta cl.tasks id) ∧
    (∀ id, specObserved cl.tasks id = 0 → GoMap.lookup m id = none) ∧
    (∀ id, specObserved cl.tasks id ≠ 0 → GoMap.lookup m id = some (specDelta cl.tasks id)) := by
  obtain ⟨_, _, hm, hcl, _⟩ := CollectDeltaByString_eq kazoe w w1 m cl h
  subst hm hcl
  refine ⟨rfl, ?_, ?_, ?_⟩
  · intro id
    unfold GoMap.index
    rw [lookup_aggregate]
    split_ifs with h0
    · unfold specObserved at h0
      unfold specDelta
      have e1 : specCount ((visible kazoe.QueueName w.entries).take 1000) id "++" = 0 := by omega
      have e2 : specCount ((visible kazoe.QueueName w.entries).take 1000) id "--" = 0 := by omega
      simp [e1, e2]
    · rfl
  · intro id h0
    rw [lookup_aggregate, if_pos h0]
  · intro id h0
    rw [lookup_aggregate, if_neg h0]

/-- C1 at the queue of `TestKazoe_IncrementAsyncByString`. -/
theorem C1_witness :
    CollectDeltaByString exampleKazoe testWorld =
        (⟨some [("a", 2), ("b", 1)], some ⟨testBatch⟩, none⟩, testLeased) ∧
      (testBatch = (visible "foobar" testWorld.entries).take 1000 ∧
       (∀ id, GoMap.index [("a", 2), ("b", 1)] id = specDelta testBatch id) ∧
       (∀ id, specObserved testBatch id = 0 → GoMap.lookup [("a", 2), ("b", 1)] id = none) ∧
       (∀ id, specObserved testBatch id ≠ 0 →
          GoMap.lookup [("a", 2), ("b", 1)] id = some (specDelta testBatch id))) :=
  ⟨rfl, C1_collect_returns_reference_aggregate exampleKazoe testWorld testLeased
    [("a", 2), ("b", 1)] ⟨testBatch⟩ rfl⟩

/-- C2, as the code has it: on a well-formed queue, the commit action returned by a
successful `CollectDeltaByString` succeeds and leaves the queue as it was before the
collect without the leased tasks (the first 1000 visible tasks of the same queue):
every other task is left unchanged.  When the queue held at most 1000 visible tasks,
the next `CollectDeltaByString` returns an empty map and no error. -/
theorem C2_commit_deletes_exactly_the_leased_batch (kazoe : kazoeImpl) (w w1 : World)
    (m : GoMap String) (cl : Closer) (hwf : w.wellFormed)
    (h : CollectDeltaByString kazoe w = (⟨some m, some cl, none⟩, w1)) :
    cl.tasks = (visible kazoe.QueueName w.entries).take 1000 ∧
    (cl.call kazoe w1).1 = none ∧
    (cl.call kazoe w1).2.entries =
      w.entries.filter (fun e => decide (¬ (e.queue = kazoe.QueueName ∧ e.task ∈ cl.tasks))) ∧
    ((visible kazoe.QueueName w.entries).length ≤ 1000 →
      (CollectDeltaByString kazoe (cl.call kazoe w1).2).1.deltaMap = some [] ∧
      (CollectDeltaByString kazoe (cl.call kazoe w1).2).1.err = none) := by
  obtain ⟨hq, ha, hm, hcl, hw1⟩ := CollectDeltaByString_eq kazoe w w1 m cl h
  subst hm hcl hw1
  refine ⟨rfl, ?_, ?_, ?_⟩
  · rw [Closer_call_after_collect kazoe w hq ha hwf]
  · rw [Closer_call_after_collect kazoe w hq ha hwf]
  · intro hlen
    rw [collect_after_commit kazoe w hq ha hwf, List.drop_eq_nil_of_le hlen]
    exact ⟨rfl, rfl⟩

/-- C2 at the queue of `TestKazoe_IncrementAsyncByString`. -/
theorem C2_witness :
    (testWorld.wellFormed ∧
      CollectDeltaByString exampleKazoe testWorld =
        (⟨some [("a", 2), ("b", 1)], some ⟨testBatch⟩, none⟩, testLeased)) ∧
    (testBatch = (visible "foobar" testWorld.entries).take 1000 ∧
     (Closer.call ⟨testBatch⟩ exampleKazoe testLeased).1 = none ∧
     (Closer.call ⟨testBatch⟩ exampleKazoe testLeased).2.entries =
       testWorld.entries.filter
         (fun e => decide (¬ (e.queue = "foobar" ∧ e.task ∈ testBatch))) ∧
     ((visible "foobar" testWorld.entries).length ≤ 1000 →
       (CollectDeltaByString exampleKazoe
         (Closer.call ⟨testBatch⟩ exampleKazoe testLeased).2).1.deltaMap = some [] ∧
       (CollectDeltaByString exampleKazoe
         (Closer.call ⟨testBatch⟩ exampleKazoe testLeased).2).1.err = none)) :=
  ⟨⟨by decide, rfl⟩,
    C2_commit_deletes_exactly_the_leased_batch exampleKazoe testWorld testLeased
      [("a", 2), ("b", 1)] ⟨testBatch⟩ (by decide) rfl⟩

/-- C2 as stated fails on a backlog of 1001 increments of `a`: the collect succeeds, its
commit action is invoked, no task is emitted, and the next `CollectDeltaByString`
returns the map with `a` at 1, not an empty map. -/
theorem C2_counterexample :
    bigWorld.wellFormed ∧
    ∃ m cl w1, CollectDeltaByString exampleKazoe bigWorld = (⟨some m, some cl, none⟩, w1) ∧
      (cl.call exampleKazoe w1).1 = none ∧
      (CollectDeltaByString exampleKazoe (cl.call exampleKazoe w1).2).1.deltaMap =
        some [("a", 1)] := by
  have hq : exampleKazoe.QueueName ≠ "" := by decide
  have ha : bigWorld.unavailable = false := by simp only [bigWorld]
  refine ⟨bigWorld_wellFormed, _, _, _, CollectDeltaByString_ok exampleKazoe bigWorld hq ha, ?_, ?_⟩
  · rw [Closer_call_after_collect exampleKazoe bigWorld hq ha bigWorld_wellFormed]
  · rw [collect_after_commit exampleKazoe bigWorld hq ha bigWorld_wellFormed]
    have hv : visible exampleKazoe.QueueName bigWorld.entries =
        (List.range 1001).map incrementOfA := visible_bigWorld
    rw [hv, drop_bigWorld]
    rfl

/-- C3, as the code has it: a leased task whose tag is neither `++` nor `--`
contributes nothing to the returned map (the map is the aggregate of the batch
without it), and the paired commit action deletes it with the rest of the batch: no
task of that queue with its name is left. -/
theorem C3_unknown_tag_is_skipped_and_deleted (kazoe : kazoeImpl) (w w1 : World)
    (m : GoMap String) (cl : Closer) (t : taskqueue.Task) (hwf : w.wellFormed)
    (h : CollectDeltaByString kazoe w = (⟨some m, some cl, none⟩, w1))
    (ht : t ∈ cl.tasks) (h1 : t.Tag ≠ "++") (h2 : t.Tag ≠ "--") :
    m = aggregate (cl.tasks.filter (fun u => decide (u ≠ t))) ∧
    (cl.call kazoe w1).1 = none ∧
    ∀ e ∈ (cl.call kazoe w1).2.entries, ¬ (e.queue = kazoe.QueueName ∧ e.task = t) := by
  obtain ⟨hq, ha, hm, hcl, hw1⟩ := CollectDeltaByString_eq kazoe w w1 m cl h
  subst hm hcl hw1
  refine ⟨?_, ?_, ?_⟩
  · unfold aggregate
    rw [foldl_collectStep_filter]
    intro u _ hu
    have : u = t := by simpa using hu
    rw [this]
    exact ⟨h1, h2⟩
  · rw [Closer_call_after_collect kazoe w hq ha hwf]
  · rw [Closer_call_after_collect kazoe w hq ha hwf]
    intro e he
    have := (List.mem_filter.mp he).2
    rintro ⟨hq1, rfl⟩
    simp only [decide_eq_true_eq, not_and] at this
    exact this hq1 ht

/-- C3 at a queue holding a task tagged `??`. -/
theorem C3_witness :
    (oddWorld.wellFormed ∧
      CollectDeltaByString exampleKazoe oddWorld =
        (⟨some [("a", 1)], some ⟨[oddTask, incrementOfA 1]⟩, none⟩, oddLeased) ∧
      oddTask ∈ [oddTask, incrementOfA 1] ∧ oddTask.Tag ≠ "++" ∧ oddTask.Tag ≠ "--") ∧
    ([("a", 1)] = aggregate ([oddTask, incrementOfA 1].filter (fun u => decide (u ≠ oddTask))) ∧
     (Closer.call ⟨[oddTask, incrementOfA 1]⟩ exampleKazoe oddLeased).1 = none ∧
     ∀ e ∈ (Closer.call ⟨[oddTask, incrementOfA 1]⟩ exampleKazoe oddLeased).2.entries,
       ¬ (e.queue = "foobar" ∧ e.task = oddTask)) :=
  ⟨⟨by decide, rfl, by decide, by decide, by decide⟩,
    C3_unknown_tag_is_skipped_and_deleted exampleKazoe oddWorld oddLeased [("a", 1)]
      ⟨[oddTask, incrementOfA 1]⟩ oddTask (by decide) rfl (by decide) (by decide) (by decide)⟩

/-- C3 as stated fails: `oddTask`, tagged `??`, is leased by the collect and is not
aggregated, but after the paired commit action it is no longer in the queue. -/
theorem C3_counterexample :
    CollectDeltaByString exampleKazoe oddWorld =
      (⟨some [("a", 1)], some ⟨[oddTask, incrementOfA 1]⟩, none⟩, oddLeased) ∧
    oddTask.Tag ≠ "++" ∧ oddTask.Tag ≠ "--" ∧
    (⟨"foobar", oddTask, false⟩ : taskqueue.Entry) ∈ oddWorld.entries ∧
    (Closer.call ⟨[oddTask, incrementOfA 1]⟩ exampleKazoe oddLeased).1 = none ∧
    (Closer.call ⟨[oddTask, incrementOfA 1]⟩ exampleKazoe oddLeased).2.entries = [] :=
  ⟨rfl, by decide, by decide, by decide, by decide, by decide⟩

theorem PurgeAsyncCount_ok (kazoe : kazoeImpl) (w : World)
    (hq : kazoe.QueueName ≠ "") (ha : w.unavailable = false) :
    PurgeAsyncCount kazoe w =
      (none, { w with entries := w.entries.filter (fun e => decide (e.queue ≠ kazoe.QueueName)),
                      calls := w.calls + 1 }) := by
  unfold PurgeAsyncCount taskqueue.Purge
  simp only [if_neg hq, ha, Bool.false_eq_true, if_false]

/-- C7: whatever the backlog, while the service answers, `PurgeAsyncCount` on a
non-empty queue name succeeds and the `CollectDeltaByString` that follows it returns
an empty map, a commit action and no error. -/
theorem C7_purge_then_collect_is_empty (kazoe : kazoeImpl) (w : World)
    (hq : kazoe.QueueName ≠ "") (ha : w.unavailable = false) :
    (PurgeAsyncCount kazoe w).1 = none ∧
    (CollectDeltaByString kazoe (PurgeAsyncCount kazoe w).2).1.deltaMap = some [] ∧
    (CollectDeltaByString kazoe (PurgeAsyncCount kazoe w).2).1.closer = some ⟨[]⟩ ∧
    (CollectDeltaByString kazoe (PurgeAsyncCount kazoe w).2).1.err = none := by
  rw [PurgeAsyncCount_ok kazoe w hq ha]
  dsimp only
  rw [CollectDeltaByString_ok kazoe
    ⟨w.entries.filter (fun e => decide (e.queue ≠ kazoe.QueueName)),
      w.nextName, w.unavailable, w.calls + 1⟩ hq ha]
  simp only [visible_purged, List.take_nil, aggregate_nil, and_self]

/-- C7 at the queue of `TestKazoeImpl_PurgeAsyncCount` with a larger backlog. -/
theorem C7_witness :
    (exampleKazoe.QueueName ≠ "" ∧ testWorld.unavailable = false) ∧
    ((PurgeAsyncCount exampleKazoe testWorld).1 = none ∧
     (CollectDeltaByString exampleKazoe (PurgeAsyncCount exampleKazoe testWorld).2).1.deltaMap =
       some [] ∧
     (CollectDeltaByString exampleKazoe (PurgeAsyncCount exampleKazoe testWorld).2).1.closer =
       some ⟨[]⟩ ∧
     (CollectDeltaByString exampleKazoe (PurgeAsyncCount exampleKazoe testWorld).2).1.err =
       none) :=
  ⟨⟨by decide, by decide⟩,
    C7_purge_then_collect_is_empty exampleKazoe testWorld (by decide) (by decide)⟩

/-- C9: the aggregation is order-independent.  When the batches leased by two
successful calls of `CollectDeltaByString` are permutations of each other, the two
returned maps have the same keys and the same value at every key. -/
theorem C9_aggregate_is_order_independent (kazoe kazoe1 : kazoeImpl) (w w1 v v1 : World)
    (m n : GoMap String) (cl dl : Closer)
    (hw : CollectDeltaByString kazoe w = (⟨some m, some cl, none⟩, w1))
    (hv : CollectDeltaByString kazoe1 v = (⟨some n, some dl, none⟩, v1))
    (hperm : cl.tasks.Perm dl.tasks) :
    ∀ id, GoMap.lookup m id = GoMap.lookup n id := by
  obtain ⟨_, _, hm, hcl, _⟩ := CollectDeltaByString_eq kazoe w w1 m cl hw
  obtain ⟨_, _, hn, hdl, _⟩ := CollectDeltaByString_eq kazoe1 v v1 n dl hv
  intro id
  rw [hcl, hdl] at hperm
  rw [hm, hn, lookup_aggregate, lookup_aggregate]
  unfold specObserved specDelta
  rw [specCount_perm _ _ hperm id "++", specCount_perm _ _ hperm id "--"]

/-- C9 at the queue of `TestKazoe_IncrementAsyncByString` and the same tasks in another
order. -/
theorem C9_witness :
    (CollectDeltaByString exampleKazoe testWorld =
        (⟨some [("a", 2), ("b", 1)], some ⟨testBatch⟩, none⟩, testLeased) ∧
     CollectDeltaByString exampleKazoe shuffledWorld =
        (⟨some [("b", 1), ("a", 2)], some ⟨shuffledBatch⟩, none⟩, shuffledLeased) ∧
     testBatch.Perm shuffledBatch) ∧
    ∀ id, GoMap.lookup [("a", 2), ("b", 1)] id = GoMap.lookup [("b", 1), ("a", 2)] id :=
  ⟨⟨rfl, rfl, by decide⟩,
    C9_aggregate_is_order_independent exampleKazoe exampleKazoe testWorld testLeased
      shuffledWorld shuffledLeased [("a", 2), ("b", 1)] [("b", 1), ("a", 2)] ⟨testBatch⟩
      ⟨shuffledBatch⟩ rfl rfl (by decide)⟩

/-! ### The typed collectors -/

theorem rekey_error {κ : Type} (decode : String → Except GoError κ)
    (store : GoMap κ → κ → Int → GoMap κ) (l : List (String × Int)) (acc : GoMap κ)
    (hbad : ∃ kv ∈ l, ∃ e, decode kv.1 = .error e) :
    ∃ err, rekey decode store l acc = .error err := by
  induction l generalizing acc with
  | nil =>
    obtain ⟨kv, hkv, _⟩ := hbad
    exact absurd hkv (List.not_mem_nil _)
  | cons kv0 rest ih =>
    obtain ⟨k, v⟩ := kv0
    unfold rekey
    cases hd : decode k with
    | error e => exact ⟨e, rfl⟩
    | ok key =>
      dsimp only
      apply ih
      obtain ⟨kv, hkv, e, he⟩ := hbad
      rcases List.mem_cons.mp hkv with rfl | hmem
      · rw [hd] at he
        cases he
      · exact ⟨kv, hmem, e, he⟩

/-- A typed collector whose decoder rejects a key of the string-keyed aggregate
returns only an error, and leaves the state as the string collect left it. -/
theorem collectTyped_error {κ : Type} (decode : String → Except GoError κ)
    (store : GoMap κ → κ → Int → GoMap κ) (ro : RangeOrder) (kazoe : kazoeImpl)
    (w w1 : World) (m : GoMap String) (cl : Closer)
    (h : CollectDeltaByString kazoe w = (⟨some m, some cl, none⟩, w1))
    (hbad : ∃ kv ∈ m, ∃ e, decode kv.1 = .error e) :
    ∃ err, collectTyped decode store ro kazoe w = (⟨none, none, some err⟩, w1) := by
  have hvisit : ∃ kv ∈ ro.visit m, ∃ e, decode kv.1 = .error e := by
    obtain ⟨kv, hkv, e, he⟩ := hbad
    exact ⟨kv, (ro.perm m).mem_iff.mpr hkv, e, he⟩
  obtain ⟨err, herr⟩ := rekey_error decode store (ro.visit m) [] hvisit
  refine ⟨err, ?_⟩
  unfold collectTyped
  rw [h]
  simp only [Option.getD_some, herr]

/-- C4: when a key of the string-keyed aggregate fails to parse or decode, each typed
collector (`CollectDeltaByInt`, `CollectDeltaByInt64`, `CollectDeltaByKey`) returns an
error with a nil map and a nil commit action, and the call deletes nothing: the state
is the one the lease left, with the same tasks stored as before the call and every
leased task still in the queue. -/
theorem C4_typed_collect_is_all_or_nothing {κ : Type} (DecodeKey : String → Except GoError κ)
    (intSize : Nat) (ro : RangeOrder) (kazoe : kazoeImpl) (w w1 : World) (m : GoMap String)
    (cl : Closer) (h : CollectDeltaByString kazoe w = (⟨some m, some cl, none⟩, w1)) :
    ((∃ kv ∈ m, ∃ e, strconv.Atoi intSize kv.1 = .error e) →
      ∃ err, CollectDeltaByInt intSize ro kazoe w = (⟨none, none, some err⟩, w1)) ∧
    ((∃ kv ∈ m, ∃ e, strconv.ParseInt intSize kv.1 64 = .error e) →
      ∃ err, CollectDeltaByInt64 intSize ro kazoe w = (⟨none, none, some err⟩, w1)) ∧
    ((∃ kv ∈ m, ∃ e, DecodeKey kv.1 = .error e) →
      ∃ err, CollectDeltaByKey DecodeKey ro kazoe w = (⟨none, none, some err⟩, w1)) ∧
    w1.entries.map (fun e => (e.queue, e.task)) = w.entries.map (fun e => (e.queue, e.task)) ∧
    ∀ t ∈ cl.tasks, taskqueue.stored kazoe.QueueName w1.entries t = true := by
  refine ⟨fun hbad => collectTyped_error _ _ ro kazoe w w1 m cl h hbad,
    fun hbad => collectTyped_error _ _ ro kazoe w w1 m cl h hbad,
    fun hbad => collectTyped_error _ _ ro kazoe w w1 m cl h hbad, ?_, ?_⟩
  · obtain ⟨_, _, _, _, hw1⟩ := CollectDeltaByString_eq kazoe w w1 m cl h
    rw [hw1]
    exact leaseScan_snd_map kazoe.QueueName 1000 w.entries
  · obtain ⟨_, _, _, hcl, hw1⟩ := CollectDeltaByString_eq kazoe w w1 m cl h
    intro t ht
    rw [hw1]
    apply stored_leaseScan
    rw [leaseScan_fst]
    rw [hcl] at ht
    exact ht

/-- C4 at a queue holding increments of `7` and of `seven`. -/
theorem C4_witness :
    CollectDeltaByString exampleKazoe malformedWorld =
        (⟨some [("7", 1), ("seven", 1)], some ⟨malformedBatch⟩, none⟩, malformedLeased) ∧
    (∃ kv ∈ [("7", (1 : Int)), ("seven", 1)], ∃ e, strconv.Atoi 64 kv.1 = .error e) ∧
    (((∃ kv ∈ [("7", (1 : Int)), ("seven", 1)], ∃ e, strconv.Atoi 64 kv.1 = .error e) →
        ∃ err, CollectDeltaByInt 64 RangeOrder.backwards exampleKazoe malformedWorld =
          (⟨none, none, some err⟩, malformedLeased)) ∧
      ((∃ kv ∈ [("7", (1 : Int)), ("seven", 1)], ∃ e, strconv.ParseInt 64 kv.1 64 = .error e) →
        ∃ err, CollectDeltaByInt64 64 RangeOrder.backwards exampleKazoe malformedWorld =
          (⟨none, none, some err⟩, malformedLeased)) ∧
      ((∃ kv ∈ [("7", (1 : Int)), ("seven", 1)], ∃ e, exampleDecodeKey kv.1 = .error e) →
        ∃ err, CollectDeltaByKey exampleDecodeKey RangeOrder.backwards exampleKazoe
          malformedWorld = (⟨none, none, some err⟩, malformedLeased)) ∧
      malformedLeased.entries.map (fun e => (e.queue, e.task)) =
        malformedWorld.entries.map (fun e => (e.queue, e.task)) ∧
      ∀ t ∈ malformedBatch, taskqueue.stored "foobar" malformedLeased.entries t = true) :=
  ⟨rfl, ⟨("seven", 1), by simp, _, rfl⟩,
    C4_typed_collect_is_all_or_nothing exampleDecodeKey 64 RangeOrder.backwards exampleKazoe
      malformedWorld malformedLeased [("7", 1), ("seven", 1)] ⟨malformedBatch⟩ rfl⟩

/-- C5, as the code has it: `New("")` returns `ErrEmptyQueueName` and no instance, and
on an instance whose queue name is empty every operation (the two `ByKey` emitters
given a key that is not nil) returns `ErrEmptyQueueName` and leaves the state of the
task queue service as it was, its count of received calls included: no call to the
service is made. -/
theorem C5_empty_queue_name_fails_before_any_call {κ : Type} (Encode : κ → String)
    (DecodeKey : String → Except GoError κ) (intSize : Nat) (ro : RangeOrder) (w : World)
    (id : String) (n : Int) (key : κ) (cl : Closer) :
    New "" = (none, some ErrEmptyQueueName) ∧
    PurgeAsyncCount ⟨""⟩ w = (some ErrEmptyQueueName, w) ∧
    IncrementAsyncByString ⟨""⟩ id w = (some ErrEmptyQueueName, w) ∧
    IncrementAsyncByInt ⟨""⟩ n w = (some ErrEmptyQueueName, w) ∧
    IncrementAsyncByInt64 ⟨""⟩ n w = (some ErrEmptyQueueName, w) ∧
    IncrementAsyncByKey Encode ⟨""⟩ (some key) w =
      (Outcome.returned (some ErrEmptyQueueName), w) ∧
    DecrementAsyncByString ⟨""⟩ id w = (some ErrEmptyQueueName, w) ∧
    DecrementAsyncByInt ⟨""⟩ n w = (some ErrEmptyQueueName, w) ∧
    DecrementAsyncByInt64 ⟨""⟩ n w = (some ErrEmptyQueueName, w) ∧
    DecrementAsyncByKey Encode ⟨""⟩ (some key) w =
      (Outcome.returned (some ErrEmptyQueueName), w) ∧
    CollectDeltaByString ⟨""⟩ w = (⟨none, none, some ErrEmptyQueueName⟩, w) ∧
    CollectDeltaByInt intSize ro ⟨""⟩ w = (⟨none, none, some ErrEmptyQueueName⟩, w) ∧
    CollectDeltaByInt64 intSize ro ⟨""⟩ w = (⟨none, none, some ErrEmptyQueueName⟩, w) ∧
    CollectDeltaByKey DecodeKey ro ⟨""⟩ w = (⟨none, none, some ErrEmptyQueueName⟩, w) ∧
    cl.call ⟨""⟩ w = (some ErrEmptyQueueName, w) :=
  ⟨rfl, rfl, rfl, rfl, rfl, rfl, rfl, rfl, rfl, rfl, rfl, rfl, rfl, rfl, rfl⟩

/-- C5 as stated fails on a nil key: with an empty queue name, `IncrementAsyncByKey`
and `DecrementAsyncByKey` panic while evaluating `key.Encode()` and do not return
`ErrEmptyQueueName`. -/
theorem C5_counterexample :
    IncrementAsyncByKey exampleEncode ⟨""⟩ none emptyWorld =
      (Outcome.panicked nilDereference, emptyWorld) ∧
    (IncrementAsyncByKey exampleEncode ⟨""⟩ none emptyWorld).1 ≠
      Outcome.returned (some ErrEmptyQueueName) ∧
    DecrementAsyncByKey exampleEncode ⟨""⟩ none emptyWorld =
      (Outcome.panicked nilDereference, emptyWorld) ∧
    (DecrementAsyncByKey exampleEncode ⟨""⟩ none emptyWorld).1 ≠
      Outcome.returned (some ErrEmptyQueueName) :=
  ⟨rfl, by decide, rfl, by decide⟩

theorem perm_pair {α : Type} (a b : α) (l : List α) (h : l.Perm [a, b]) :
    l = [a, b] ∨ l = [b, a] := by
  obtain ⟨x, y, rfl⟩ := List.length_eq_two.mp (by simpa using h.length_eq)
  have hx : x ∈ [a, b] := h.subset (List.mem_cons_self _ _)
  simp only [List.mem_cons, List.mem_singleton, List.not_mem_nil, or_false] at hx
  rcases hx with rfl | rfl
  · left
    have := (List.perm_cons x).mp h
    rw [List.perm_singleton.mp this]
  · right
    have h2 : [x, y].Perm [x, a] := h.trans (List.Perm.swap _ _ _)
    have := (List.perm_cons x).mp h2
    rw [List.perm_singleton.mp this]

/-- C10, the code at the failing input: the queue holds one increment with payload
`1` and one with payload `01`.  Both payloads convert to the integer 1, so the claim
asks for the value 2 at key 1; whatever order the runtime visits the string-keyed
map in, `CollectDeltaByInt` and `CollectDeltaByInt64` return the value 1 there,
since the assignment `newDeltaMap[intK] = v` overwrites. -/
theorem C10_rekey_overwrites_colliding_keys (ro : RangeOrder) :
    CollectDeltaByString exampleKazoe collidingWorld =
      (⟨some [("1", 1), ("01", 1)], some ⟨collidingBatch⟩, none⟩, collidingLeased) ∧
    (specCountInt 64 collidingBatch 1 "++" : Int) - specCountInt 64 collidingBatch 1 "--" = 2 ∧
    (CollectDeltaByInt 64 ro exampleKazoe collidingWorld).1.deltaMap = some [(1, 1)] ∧
    (CollectDeltaByInt64 64 ro exampleKazoe collidingWorld).1.deltaMap = some [(1, 1)] := by
  have hc : CollectDeltaByString exampleKazoe collidingWorld =
      (⟨some [("1", 1), ("01", 1)], some ⟨collidingBatch⟩, none⟩, collidingLeased) := rfl
  refine ⟨hc, by decide, ?_, ?_⟩
  · unfold CollectDeltaByInt collectTyped
    rw [hc]
    dsimp only [Option.getD_some]
    rcases perm_pair _ _ _ (ro.perm [("1", 1), ("01", 1)]) with hv | hv <;> rw [hv] <;> rfl
  · unfold CollectDeltaByInt64 collectTyped
    rw [hc]
    dsimp only [Option.getD_some]
    rcases perm_pair _ _ _ (ro.perm [("1", 1), ("01", 1)]) with hv | hv <;> rw [hv] <;> rfl

/-! ### Emission and the full drain -/

theorem incrementAsync_ok (kazoe : kazoeImpl) (id : String) (w : World)
    (hq : kazoe.QueueName ≠ "") (ha : w.unavailable = false) :
    incrementAsync kazoe id w =
      (none, { w with entries := w.entries ++
                        [⟨kazoe.QueueName, ⟨w.nextName, id, "++", "PULL"⟩, false⟩],
                      nextName := w.nextName + 1,
                      calls := w.calls + 1 }) := by
  unfold incrementAsync taskqueue.Add
  simp only [if_neg hq, ha, Bool.false_eq_true, if_false]

theorem decrementAsync_ok (kazoe : kazoeImpl) (id : String) (w : World)
    (hq : kazoe.QueueName ≠ "") (ha : w.unavailable = false) :
    decrementAsync kazoe id w =
      (none, { w with entries := w.entries ++
                        [⟨kazoe.QueueName, ⟨w.nextName, id, "--", "PULL"⟩, false⟩],
                      nextName := w.nextName + 1,
                      calls := w.calls + 1 }) := by
  unfold decrementAsync taskqueue.Add
  simp only [if_neg hq, ha, Bool.false_eq_true, if_false]

/-- Storing a task under the next fresh name keeps the queue well formed. -/
theorem wellFormed_add (w : World) (q payload tag method : String) (c : Nat)
    (hwf : w.wellFormed) :
    World.wellFormed
      { w with entries := w.entries ++ [⟨q, ⟨w.nextName, payload, tag, method⟩, false⟩],
               nextName := w.nextName + 1, calls := c } := by
  obtain ⟨hnd, hlt⟩ := hwf
  constructor
  · show ((w.entries ++ [(⟨q, ⟨w.nextName, payload, tag, method⟩, false⟩ : taskqueue.Entry)]).map
      (fun e => e.task.Name)).Nodup
    rw [List.map_append, List.nodup_append]
    refine ⟨hnd, List.nodup_singleton _, ?_⟩
    intro a ha hb
    obtain ⟨e, he, rfl⟩ := List.mem_map.mp ha
    have h1 := hlt e he
    have h2 : e.task.Name = w.nextName := by simpa using hb
    omega
  · intro e he
    show e.task.Name < w.nextName + 1
    rcases List.mem_append.mp he with h | h
    · exact Nat.lt_succ_of_lt (hlt e h)
    · have : e = ⟨q, ⟨w.nextName, payload, tag, method⟩, false⟩ := by simpa using h
      rw [this]
      exact Nat.lt_succ_self _

/-- Deleting tasks keeps the queue well formed. -/
theorem wellFormed_filter (w : World) (keep : taskqueue.Entry → Bool) (c : Nat)
    (hwf : w.wellFormed) :
    World.wellFormed { w with entries := w.entries.filter keep, calls := c } := by
  obtain ⟨hnd, hlt⟩ := hwf
  constructor
  · exact List.Nodup.sublist (List.Sublist.map _ (List.filter_sublist _)) hnd
  · intro e he
    exact hlt e (List.mem_filter.mp he).1

theorem visible_singleton (q : String) (t : taskqueue.Task) :
    visible q [⟨q, t, false⟩] = [t] := by
  rw [visible_cons, if_pos ⟨rfl, rfl⟩, visible_nil]

theorem specCount_append (ts us : List taskqueue.Task) (id tag : String) :
    specCount (ts ++ us) id tag = specCount ts id tag + specCount us id tag := by
  unfold specCount
  exact List.countP_append _ _ _

theorem specCount_nil (id tag : String) : specCount [] id tag = 0 := rfl

/-- What a sequence of emissions for `id` adds to the visible tasks of the queue. -/
theorem emitAll_spec (kazoe : kazoeImpl) (id : String) (hq : kazoe.QueueName ≠ "")
    (ops : List Bool) (w : World) (ha : w.unavailable = false) (hwf : w.wellFormed) :
    (emitAll kazoe id ops w).unavailable = false ∧ (emitAll kazoe id ops w).wellFormed ∧
    ∃ ts, visible kazoe.QueueName (emitAll kazoe id ops w).entries =
        visible kazoe.QueueName w.entries ++ ts ∧
      (∀ t ∈ ts, t.Payload = id ∧ (t.Tag = "++" ∨ t.Tag = "--")) ∧
      ts.length = ops.length ∧
      specCount ts id "++" = ops.count true ∧ specCount ts id "--" = ops.count false := by
  induction ops generalizing w with
  | nil =>
    refine ⟨ha, hwf, [], ?_, ?_, rfl, rfl, rfl⟩
    · simp [emitAll]
    · intro t ht
      exact absurd ht (List.not_mem_nil _)
  | cons op ops ih =>
    cases op with
    | true =>
      unfold emitAll IncrementAsyncByString
      rw [incrementAsync_ok kazoe id w hq ha]
      dsimp only
      obtain ⟨h1, h2, ts, h3, h4, h5, h6, h7⟩ :=
        ih ⟨w.entries ++ [⟨kazoe.QueueName, ⟨w.nextName, id, "++", "PULL"⟩, false⟩],
            w.nextName + 1, w.unavailable, w.calls + 1⟩ ha
          (wellFormed_add w kazoe.QueueName id "++" "PULL" (w.calls + 1) hwf)
      refine ⟨h1, h2, ⟨w.nextName, id, "++", "PULL"⟩ :: ts, ?_, ?_, ?_, ?_, ?_⟩
      · rw [h3, visible_append, visible_singleton, List.append_assoc, List.singleton_append]
      · intro t ht
        rcases List.mem_cons.mp ht with rfl | ht
        · exact ⟨rfl, Or.inl rfl⟩
        · exact h4 t ht
      · simp [h5]
      · rw [specCount_cons, h6, if_pos ⟨rfl, rfl⟩, List.count_cons_self]
      · rw [specCount_cons, h7, if_neg (fun h => absurd h.2 (show ("++" : String) ≠ "--" by decide)),
          List.count_cons_of_ne (by decide)]
        rfl
    | false =>
      unfold emitAll DecrementAsyncByString
      rw [decrementAsync_ok kazoe id w hq ha]
      dsimp only
      obtain ⟨h1, h2, ts, h3, h4, h5, h6, h7⟩ :=
        ih ⟨w.entries ++ [⟨kazoe.QueueName, ⟨w.nextName, id, "--", "PULL"⟩, false⟩],
            w.nextName + 1, w.unavailable, w.calls + 1⟩ ha
          (wellFormed_add w kazoe.QueueName id "--" "PULL" (w.calls + 1) hwf)
      refine ⟨h1, h2, ⟨w.nextName, id, "--", "PULL"⟩ :: ts, ?_, ?_, ?_, ?_, ?_⟩
      · rw [h3, visible_append, visible_singleton, List.append_assoc, List.singleton_append]
      · intro t ht
        rcases List.mem_cons.mp ht with rfl | ht
        · exact ⟨rfl, Or.inr rfl⟩
        · exact h4 t ht
      · simp [h5]
      · rw [specCount_cons, h6, if_neg (fun h => absurd h.2 (show ("--" : String) ≠ "++" by decide)),
          List.count_cons_of_ne (by decide)]
        rfl
      · rw [specCount_cons, h7, if_pos ⟨rfl, rfl⟩, List.count_cons_self]

theorem index_aggregate (tasks : List taskqueue.Task) (id : String) :
    GoMap.index (aggregate tasks) id = specDelta tasks id := by
  unfold GoMap.index
  rw [lookup_aggregate]
  split_ifs with h0
  · unfold specObserved at h0
    unfold specDelta
    have e1 : specCount tasks id "++" = 0 := by omega
    have e2 : specCount tasks id "--" = 0 := by omega
    simp [e1, e2]
  · rfl

theorem specObserved_ne_zero (ts : List taskqueue.Task) (t : taskqueue.Task) (ht : t ∈ ts)
    (htag : t.Tag = "++" ∨ t.Tag = "--") : specObserved ts t.Payload ≠ 0 := by
  unfold specObserved specCount
  rcases htag with h | h
  · have : 0 < ts.countP (fun u => decide (u.Payload = t.Payload ∧ u.Tag = "++")) :=
      List.countP_pos_iff.mpr ⟨t, ht, by simp [h]⟩
    omega
  · have : 0 < ts.countP (fun u => decide (u.Payload = t.Payload ∧ u.Tag = "--")) :=
      List.countP_pos_iff.mpr ⟨t, ht, by simp [h]⟩
    omega

theorem exists_of_specObserved_ne_zero (ts : List taskqueue.Task) (id : String)
    (h : specObserved ts id ≠ 0) : ∃ t ∈ ts, t.Payload = id := by
  unfold specObserved specCount at h
  have : 0 < ts.countP (fun u => decide (u.Payload = id ∧ u.Tag = "++")) ∨
      0 < ts.countP (fun u => decide (u.Payload = id ∧ u.Tag = "--")) := by omega
  rcases this with h1 | h1
  · obtain ⟨t, ht, hp⟩ := List.countP_pos_iff.mp h1
    exact ⟨t, ht, (of_decide_eq_true hp).1⟩
  · obtain ⟨t, ht, hp⟩ := List.countP_pos_iff.mp h1
    exact ⟨t, ht, (of_decide_eq_true hp).1⟩

/-- An empty aggregate of tasks that are all tagged `++` or `--` means an empty batch. -/
theorem batch_nil_of_aggregate_nil (ts : List taskqueue.Task)
    (htag : ∀ t ∈ ts, t.Tag = "++" ∨ t.Tag = "--") (h : aggregate ts = []) : ts = [] := by
  cases ts with
  | nil => rfl
  | cons t ts =>
    exfalso
    have h1 := lookup_aggregate (t :: ts) t.Payload
    rw [h, if_neg (specObserved_ne_zero (t :: ts) t (List.mem_cons_self _ _)
      (htag t (List.mem_cons_self _ _)))] at h1
    simp [GoMap.lookup] at h1

theorem specDelta_take_add_drop (ts : List taskqueue.Task) (n : Nat) (id : String) :
    specDelta (ts.take n) id + specDelta (ts.drop n) id = specDelta ts id := by
  have h1 := specCount_append (ts.take n) (ts.drop n) id "++"
  have h2 := specCount_append (ts.take n) (ts.drop n) id "--"
  rw [List.take_append_drop] at h1 h2
  unfold specDelta
  rw [h1, h2]
  push_cast
  ring

/-- The full drain of a well-formed queue whose visible tasks are all tagged `++` or
`--`: with more rounds than visible tasks it ends, the returned maps sum to the net
delta of the visible tasks at every identifier, and every key of a returned map is
the payload of a visible task. -/
theorem drain_spec (kazoe : kazoeImpl) (hq : kazoe.QueueName ≠ "") (fuel : Nat) (w : World)
    (ha : w.unavailable = false) (hwf : w.wellFormed)
    (htag : ∀ t ∈ visible kazoe.QueueName w.entries, t.Tag = "++" ∨ t.Tag = "--")
    (hlen : (visible kazoe.QueueName w.entries).length < fuel) :
    ∃ ms w1, drain fuel kazoe w = (some ms, w1) ∧
      (∀ id, (ms.map (fun m => GoMap.index m id)).sum =
        specDelta (visible kazoe.QueueName w.entries) id) ∧
      ∀ m ∈ ms, ∀ key, GoMap.lookup m key ≠ none →
        ∃ t ∈ visible kazoe.QueueName w.entries, t.Payload = key := by
  induction fuel generalizing w with
  | zero => exact absurd hlen (Nat.not_lt_zero _)
  | succ fuel ih =>
    have hkeys : ∀ key, GoMap.lookup
        (aggregate ((visible kazoe.QueueName w.entries).take 1000)) key ≠ none →
        ∃ t ∈ visible kazoe.QueueName w.entries, t.Payload = key := by
      intro key hkey
      rw [lookup_aggregate] at hkey
      by_cases h0 : specObserved ((visible kazoe.QueueName w.entries).take 1000) key = 0
      · rw [if_pos h0] at hkey
        exact absurd rfl hkey
      · obtain ⟨t, ht, hp⟩ := exists_of_specObserved_ne_zero _ _ h0
        exact ⟨t, List.mem_of_mem_take ht, hp⟩
    unfold drain
    rw [CollectDeltaByString_ok kazoe w hq ha]
    dsimp only
    rw [Closer_call_after_collect kazoe w hq ha hwf]
    dsimp only
    by_cases hzero : GoMap.len (aggregate ((visible kazoe.QueueName w.entries).take 1000)) = 0
    · rw [if_pos hzero]
      have hnil : aggregate ((visible kazoe.QueueName w.entries).take 1000) = [] :=
        List.length_eq_zero.mp hzero
      have hbatch := batch_nil_of_aggregate_nil _
        (fun t ht => htag t (List.mem_of_mem_take ht)) hnil
      have hvis : visible kazoe.QueueName w.entries = [] := by
        rcases List.take_eq_nil_iff.mp hbatch with h | h
        · exact absurd h (by decide)
        · exact h
      refine ⟨_, _, rfl, ?_, ?_⟩
      · intro id
        rw [hnil, hvis]
        rfl
      · intro m hm key hkey
        rw [List.mem_singleton.mp hm] at hkey
        exact hkeys key hkey
    · rw [if_neg hzero]
      have hne : visible kazoe.QueueName w.entries ≠ [] := by
        intro h
        apply hzero
        rw [h]
        rfl
      have hpos : 0 < (visible kazoe.QueueName w.entries).length := List.length_pos.mpr hne
      obtain ⟨ms, w3, hdrain, hsum, hks⟩ := ih
        ⟨w.entries.filter (fun e => decide (¬ (e.queue = kazoe.QueueName ∧
            e.task ∈ (visible kazoe.QueueName w.entries).take 1000))),
          w.nextName, w.unavailable, w.calls + 1 + 1⟩ ha
        (wellFormed_filter w _ (w.calls + 1 + 1) hwf)
        (by
          intro t ht
          rw [visible_after_commit kazoe.QueueName w.entries hwf.1] at ht
          exact htag t (List.mem_of_mem_drop ht))
        (by
          rw [visible_after_commit kazoe.QueueName w.entries hwf.1, List.length_drop]
          omega)
      rw [hdrain]
      dsimp only
      refine ⟨_, _, rfl, ?_, ?_⟩
      · intro id
        rw [List.map_cons, List.sum_cons, hsum id, index_aggregate,
          visible_after_commit kazoe.QueueName w.entries hwf.1, specDelta_take_add_drop]
      · intro m hm key hkey
        rcases List.mem_cons.mp hm with rfl | hm
        · exact hkeys key hkey
        · obtain ⟨t, ht, hp⟩ := hks m hm key hkey
          rw [visible_after_commit kazoe.QueueName w.entries hwf.1] at ht
          exact ⟨t, List.mem_of_mem_drop ht, hp⟩

theorem visible_eq_nil (q : String) (es : List taskqueue.Entry)
    (h : ∀ e ∈ es, e.queue ≠ q) : visible q es = [] := by
  unfold visible
  rw [List.map_eq_nil_iff, List.filter_eq_nil_iff]
  intro e he
  simp only [decide_eq_true_eq, not_and]
  intro hq
  exact absurd hq (h e he)

/-- C6: `ops` is any interleaving of N increments (`true`) and M decrements (`false`)
of one identifier, emitted onto a queue that holds no task, on a well-formed service
that answers.  The full drain (collect and commit, repeated until the returned map is
empty) ends within `N + M + 1` rounds; the values of the returned maps at the
identifier sum to `N - M`, and no other identifier is a key of any returned map. -/
theorem C6_full_drain_returns_net_delta (kazoe : kazoeImpl) (w0 : World) (id : String)
    (ops : List Bool) (hq : kazoe.QueueName ≠ "") (ha : w0.unavailable = false)
    (hwf : w0.wellFormed) (hempty : ∀ e ∈ w0.entries, e.queue ≠ kazoe.QueueName) :
    ∃ ms w1, drain (ops.length + 1) kazoe (emitAll kazoe id ops w0) = (some ms, w1) ∧
      (ms.map (fun m => GoMap.index m id)).sum =
        (ops.count true : Int) - (ops.count false : Int) ∧
      ∀ m ∈ ms, ∀ key, GoMap.lookup m key ≠ none → key = id := by
  obtain ⟨ha1, hwf1, ts, hvis, htags, hlen, hinc, hdec⟩ := emitAll_spec kazoe id hq ops w0 ha hwf
  rw [visible_eq_nil kazoe.QueueName w0.entries hempty, List.nil_append] at hvis
  obtain ⟨ms, w1, hdrain, hsum, hkeys⟩ := drain_spec kazoe hq (ops.length + 1)
    (emitAll kazoe id ops w0) ha1 hwf1
    (by
      intro t ht
      rw [hvis] at ht
      exact (htags t ht).2)
    (by
      rw [hvis, hlen]
      exact Nat.lt_succ_self _)
  refine ⟨ms, w1, hdrain, ?_, ?_⟩
  · rw [hsum id, hvis]
    unfold specDelta
    rw [hinc, hdec]
  · intro m hm key hkey
    obtain ⟨t, ht, hp⟩ := hkeys m hm key hkey
    rw [hvis] at ht
    rw [← hp]
    exact (htags t ht).1

/-- C6 at the interleaving increment, decrement, increment of `a` on an empty
service. -/
theorem C6_witness :
    (exampleKazoe.QueueName ≠ "" ∧ emptyWorld.unavailable = false ∧ emptyWorld.wellFormed ∧
      ∀ e ∈ emptyWorld.entries, e.queue ≠ exampleKazoe.QueueName) ∧
    ∃ ms w1, drain ([true, false, true].length + 1) exampleKazoe
        (emitAll exampleKazoe "a" [true, false, true] emptyWorld) = (some ms, w1) ∧
      (ms.map (fun m => GoMap.index m "a")).sum =
        (([true, false, true].count true : Nat) : Int) -
          (([true, false, true].count false : Nat) : Int) ∧
      ∀ m ∈ ms, ∀ key, GoMap.lookup m key ≠ none → key = "a" :=
  ⟨⟨by decide, by decide, by decide, by decide⟩,
    C6_full_drain_returns_net_delta exampleKazoe emptyWorld "a" [true, false, true]
      (by decide) (by decide) (by decide) (by decide)⟩

/-! ### strconv: formatting then parsing -/

theorem digit_digitChar (d : Nat) (h : d < 10) : strconv.digit (strconv.digitChar d) = some d := by
  interval_cases d <;> rfl

theorem parseDigits_cons (c : Char) (cs : List Char) (n : Nat) :
    strconv.parseDigits (c :: cs) n =
      (strconv.digit c).bind (fun d => strconv.parseDigits cs (n * 10 + d)) := by
  rw [strconv.parseDigits]
  cases strconv.digit c <;> rfl

theorem parseDigits_append (l1 l2 : List Char) (acc : Nat) :
    strconv.parseDigits (l1 ++ l2) acc =
      (strconv.parseDigits l1 acc).bind (strconv.parseDigits l2) := by
  induction l1 generalizing acc with
  | nil => rfl
  | cons c l1 ih =>
    rw [List.cons_append, parseDigits_cons, parseDigits_cons]
    cases strconv.digit c with
    | none => rfl
    | some d => exact ih _

theorem parseDigits_reverse_digits (L : List Nat) (hL : ∀ d ∈ L, d < 10) (acc : Nat) :
    strconv.parseDigits (L.reverse.map strconv.digitChar) acc =
      some (acc * 10 ^ L.length + Nat.ofDigits 10 L) := by
  induction L generalizing acc with
  | nil => simp [strconv.parseDigits]
  | cons d t ih =>
    rw [List.reverse_cons, List.map_append, parseDigits_append,
      ih (fun x hx => hL x (List.mem_cons_of_mem _ hx)) acc]
    simp only [List.map_cons, List.map_nil, Option.some_bind]
    rw [parseDigits_cons, digit_digitChar d (hL d (List.mem_cons_self _ _))]
    simp only [Option.some_bind, strconv.parseDigits, Nat.ofDigits_cons, List.length_cons,
      Option.some.injEq]
    ring

theorem digits_reverse_of_lt_ten (u : Nat) (hu : u < 10) :
    (if u = 0 then ['0'] else (Nat.digits 10 u).reverse.map strconv.digitChar) =
      [strconv.digitChar u] := by
  interval_cases u <;> simp [strconv.digitChar]

/-- The loop of `formatBits` writes the decimal digits of `u` in front of what the
buffer already holds. -/
theorem formatLoop_eq (room : Nat) (u : Nat) (acc : List Char) (hu : u < 10 ^ (room + 1)) :
    strconv.formatLoop room u acc =
      (if u = 0 then ['0'] else (Nat.digits 10 u).reverse.map strconv.digitChar) ++ acc := by
  induction room generalizing u acc with
  | zero =>
    rw [strconv.formatLoop, digits_reverse_of_lt_ten u (by simpa using hu)]
    rfl
  | succ room ih =>
    rw [strconv.formatLoop]
    by_cases h10 : 10 ≤ u
    · rw [if_pos h10, ih (u / 10) _ (by
        rw [Nat.div_lt_iff_lt_mul (by norm_num)]
        rw [pow_succ] at hu
        exact hu)]
      have hq : u / 10 ≠ 0 := by omega
      have hu0 : u ≠ 0 := by omega
      have hd : Nat.digits 10 u = u % 10 :: Nat.digits 10 (u / 10) :=
        Nat.digits_def' (by norm_num) (by omega)
      rw [if_neg hq, if_neg hu0, hd]
      simp
    · rw [if_neg h10, digits_reverse_of_lt_ten u (by omega)]
      rfl

theorem parseDigits_formatBits (u : Nat) (hu : u < 10 ^ 65) :
    strconv.parseDigits (strconv.formatBits u) 0 = some u := by
  unfold strconv.formatBits
  rw [formatLoop_eq 64 u [] hu, List.append_nil]
  by_cases h : u = 0
  · subst h
    rfl
  · rw [if_neg h, parseDigits_reverse_digits _ (fun d hd => Nat.digits_lt_base (by norm_num) hd),
      Nat.ofDigits_digits]
    simp

theorem formatLoop_ne_nil (room : Nat) (u : Nat) (acc : List Char) :
    strconv.formatLoop room u acc ≠ [] := by
  induction room generalizing u acc with
  | zero =>
    rw [strconv.formatLoop]
    exact List.cons_ne_nil _ _
  | succ room ih =>
    rw [strconv.formatLoop]
    by_cases h10 : 10 ≤ u
    · rw [if_pos h10]
      exact ih _ _
    · rw [if_neg h10]
      exact List.cons_ne_nil _ _

theorem formatBits_ne_nil (u : Nat) : strconv.formatBits u ≠ [] :=
  formatLoop_ne_nil 64 u []

/-- The first byte of a digit string that parses is not a sign. -/
theorem head_not_sign (c : Char) (cs : List Char) (u : Nat)
    (h : strconv.parseDigits (c :: cs) 0 = some u) : ¬ (c = '+' ∨ c = '-') := by
  rintro (rfl | rfl)
  · simp [strconv.parseDigits, strconv.digit] at h
  · simp [strconv.parseDigits, strconv.digit] at h

theorem wrapInt_eq_self (b : Nat) (x : Int) (hb : 1 ≤ b) (h1 : -2 ^ (b - 1) ≤ x)
    (h2 : x < 2 ^ (b - 1)) : wrapInt b x = x := by
  unfold wrapInt
  have hpow : (2 : Int) ^ b = 2 * 2 ^ (b - 1) := by
    conv_lhs => rw [show b = (b - 1) + 1 by omega]
    rw [pow_succ]
    ring
  rw [Int.emod_eq_of_lt (by linarith) (by linarith)]
  ring

/-- Parsing an unsigned digit string whose value fits the signed range. -/
theorem ParseInt_unsigned (intSize bitSize B : Nat) (L : List Char) (u : Nat)
    (hbits : (if bitSize = 0 then intSize else bitSize) = B) (hB : B = 32 ∨ B = 64)
    (hp : strconv.parseDigits L 0 = some u) (hL : L ≠ []) (hu : (u : Int) < 2 ^ (B - 1)) :
    strconv.ParseInt intSize (String.mk L) bitSize = .ok (u : Int) := by
  obtain ⟨c, cs, rfl⟩ := List.exists_cons_of_ne_nil hL
  have hsign := head_not_sign c cs u hp
  have hneg : ¬ c = '-' := fun h => hsign (Or.inr h)
  have hplus : ¬ c = '+' := fun h => hsign (Or.inl h)
  have hu1 : u < 2 ^ (B - 1) := by exact_mod_cast hu
  have hu2 : ¬ 2 ^ B ≤ u := by
    rcases hB with rfl | rfl <;> omega
  have hu3 : ¬ 2 ^ (B - 1) ≤ u := by omega
  have hw : wrapInt 64 (u : Int) = u := by
    apply wrapInt_eq_self 64 _ (by norm_num)
    · have : (0 : Int) ≤ u := Int.ofNat_nonneg u
      have : (0 : Int) < 2 ^ (64 - 1) := by norm_num
      linarith
    · rcases hB with rfl | rfl
      · have : (2 : Int) ^ (32 - 1) < 2 ^ (64 - 1) := by norm_num
        linarith
      · exact hu
  unfold strconv.ParseInt strconv.ParseUint
  simp only [hbits, hplus, hneg, or_self, if_false, hp, hu2, hu3, hw, decide_False,
    Option.isSome_none, Bool.false_eq_true, false_and, and_false, reduceCtorEq, if_true]

theorem wrapInt_neg_wrapInt (u : Nat) (hu : u ≤ 2 ^ 63) :
    wrapInt 64 (-(wrapInt 64 (u : Int))) = -(u : Int) := by
  unfold wrapInt
  norm_num at hu ⊢
  omega

/-- Parsing a minus sign and a digit string whose value fits the signed range. -/
theorem ParseInt_minus (intSize bitSize B : Nat) (L : List Char) (u : Nat)
    (hbits : (if bitSize = 0 then intSize else bitSize) = B) (hB : B = 32 ∨ B = 64)
    (hp : strconv.parseDigits L 0 = some u) (hL : L ≠ []) (hu : u ≤ 2 ^ (B - 1)) :
    strconv.ParseInt intSize (String.mk ('-' :: L)) bitSize = .ok (-(u : Int)) := by
  have hu2 : ¬ 2 ^ B ≤ u := by
    rcases hB with rfl | rfl <;> omega
  have hu3 : ¬ 2 ^ (B - 1) < u := by omega
  have hw : wrapInt 64 (-(wrapInt 64 (u : Int))) = -(u : Int) := by
    apply wrapInt_neg_wrapInt
    rcases hB with rfl | rfl <;> omega
  unfold strconv.ParseInt strconv.ParseUint
  simp only [hbits, hL, or_true, if_true, if_false, hp, hu2, hu3, hw, decide_True,
    Option.isSome_none, Bool.false_eq_true, false_and, and_false, reduceCtorEq]

/-- Formatting an integer of the signed range and parsing it back. -/
theorem ParseInt_FormatInt (intSize bitSize B : Nat) (n : Int)
    (hbits : (if bitSize = 0 then intSize else bitSize) = B) (hB : B = 32 ∨ B = 64)
    (h1 : -2 ^ (B - 1) ≤ n) (h2 : n < 2 ^ (B - 1)) :
    strconv.ParseInt intSize (strconv.FormatInt n) bitSize = .ok n := by
  unfold strconv.FormatInt
  by_cases hn : n < 0
  · rw [if_pos hn]
    have hu : n.natAbs ≤ 2 ^ (B - 1) := by
      have : ((n.natAbs : Nat) : Int) ≤ 2 ^ (B - 1) := by
        rw [Int.natCast_natAbs, abs_of_neg hn]
        linarith
      exact_mod_cast this
    have hbig : n.natAbs < 10 ^ 65 := by
      rcases hB with rfl | rfl <;> omega
    rw [ParseInt_minus intSize bitSize B _ n.natAbs hbits hB (parseDigits_formatBits _ hbig)
      (formatBits_ne_nil _) hu, Int.natCast_natAbs, abs_of_neg hn, neg_neg]
  · rw [if_neg hn]
    have hnn : 0 ≤ n := not_lt.mp hn
    have hcast : ((n.natAbs : Nat) : Int) = n := by
      rw [Int.natCast_natAbs, abs_of_nonneg hnn]
    have hbig : n.natAbs < 10 ^ 65 := by
      have h3 : ((n.natAbs : Nat) : Int) < 2 ^ (B - 1) := by rw [hcast]; exact h2
      have h4 : n.natAbs < 2 ^ (B - 1) := by exact_mod_cast h3
      rcases hB with rfl | rfl <;> omega
    rw [ParseInt_unsigned intSize bitSize B _ n.natAbs hbits hB (parseDigits_formatBits _ hbig)
      (formatBits_ne_nil _) (by rw [hcast]; exact h2), hcast]

theorem Atoi_Itoa (intSize : Nat) (hsize : intSize = 32 ∨ intSize = 64) (n : Int)
    (h1 : -2 ^ (intSize - 1) ≤ n) (h2 : n < 2 ^ (intSize - 1)) :
    strconv.Atoi intSize (strconv.Itoa n) = .ok n := by
  unfold strconv.Atoi strconv.Itoa
  rw [ParseInt_FormatInt intSize 0 intSize n (if_pos rfl) hsize h1 h2]
  dsimp only
  rw [wrapInt_eq_self intSize n (by rcases hsize with h | h <;> omega) h1 h2]

theorem aggregate_single_increment (name : Nat) (payload method : String) :
    aggregate [⟨name, payload, "++", method⟩] = [(payload, 1)] := by
  simp [aggregate, collectStep, GoMap.lookup, GoMap.assign]

theorem aggregate_single_decrement (name : Nat) (payload method : String) :
    aggregate [⟨name, payload, "--", method⟩] = [(payload, -1)] := by
  have hne : ¬ ("--" : String) = "++" := by decide
  simp [aggregate, collectStep, GoMap.lookup, GoMap.assign, hne]

/-- A typed collect of a queue that holds one visible task whose payload decodes. -/
theorem collectTyped_single {κ : Type} [DecidableEq κ] (decode : String → Except GoError κ)
    (ro : RangeOrder) (kazoe : kazoeImpl) (w : World) (t : taskqueue.Task) (key : κ)
    (delta : Int) (hq : kazoe.QueueName ≠ "") (ha : w.unavailable = false)
    (hvis : visible kazoe.QueueName w.entries = [t]) (hagg : aggregate [t] = [(t.Payload, delta)])
    (hdec : decode t.Payload = .ok key) :
    (collectTyped decode GoMap.assign ro kazoe w).1.deltaMap = some [(key, delta)] := by
  unfold collectTyped
  rw [CollectDeltaByString_ok kazoe w hq ha, hvis]
  have htake : List.take 1000 [t] = [t] := rfl
  rw [htake, hagg]
  dsimp only [Option.getD_some]
  rw [List.perm_singleton.mp (ro.perm [(t.Payload, delta)])]
  simp only [rekey, hdec, GoMap.assign]

theorem visible_after_increment (kazoe : kazoeImpl) (payload : String)
    (hq : kazoe.QueueName ≠ "") :
    visible kazoe.QueueName (incrementAsync kazoe payload emptyWorld).2.entries =
      [⟨0, payload, "++", "PULL"⟩] := by
  rw [incrementAsync_ok kazoe payload emptyWorld hq rfl]
  exact visible_singleton _ _

theorem visible_after_decrement (kazoe : kazoeImpl) (payload : String)
    (hq : kazoe.QueueName ≠ "") :
    visible kazoe.QueueName (decrementAsync kazoe payload emptyWorld).2.entries =
      [⟨0, payload, "--", "PULL"⟩] := by
  rw [decrementAsync_ok kazoe payload emptyWorld hq rfl]
  exact visible_singleton _ _

theorem unavailable_after_increment (kazoe : kazoeImpl) (payload : String)
    (hq : kazoe.QueueName ≠ "") :
    (incrementAsync kazoe payload emptyWorld).2.unavailable = false := by
  rw [incrementAsync_ok kazoe payload emptyWorld hq rfl]
  rfl

theorem unavailable_after_decrement (kazoe : kazoeImpl) (payload : String)
    (hq : kazoe.QueueName ≠ "") :
    (decrementAsync kazoe payload emptyWorld).2.unavailable = false := by
  rw [decrementAsync_ok kazoe payload emptyWorld hq rfl]
  rfl

/-- C8: on a platform whose `int` has 32 or 64 bits, the payload that the integer
emitters encode round-trips.  `Atoi (Itoa n) = n` for every `int` `n` and
`ParseInt (FormatInt n, 10, 64) = n` for every `int64` `n`, without error; distinct
integers encode to distinct payloads; and a collect by integer of a queue that holds
the one task emitted for `n` returns the map with the single key `n`. -/
theorem C8_integer_identifiers_round_trip (intSize : Nat)
    (hsize : intSize = 32 ∨ intSize = 64) :
    (∀ n : Int, -2 ^ (intSize - 1) ≤ n → n < 2 ^ (intSize - 1) →
      strconv.Atoi intSize (strconv.Itoa n) = .ok n) ∧
    (∀ n : Int, -2 ^ 63 ≤ n → n < 2 ^ 63 →
      strconv.ParseInt intSize (strconv.FormatInt n) 64 = .ok n) ∧
    (∀ a b : Int, -2 ^ (intSize - 1) ≤ a → a < 2 ^ (intSize - 1) →
      -2 ^ (intSize - 1) ≤ b → b < 2 ^ (intSize - 1) →
      strconv.Itoa a = strconv.Itoa b → a = b) ∧
    (∀ a b : Int, -2 ^ 63 ≤ a → a < 2 ^ 63 → -2 ^ 63 ≤ b → b < 2 ^ 63 →
      strconv.FormatInt a = strconv.FormatInt b → a = b) ∧
    (∀ (kazoe : kazoeImpl) (ro : RangeOrder) (n : Int), kazoe.QueueName ≠ "" →
      -2 ^ (intSize - 1) ≤ n → n < 2 ^ (intSize - 1) →
      (CollectDeltaByInt intSize ro kazoe (IncrementAsyncByInt kazoe n emptyWorld).2).1.deltaMap =
        some [(n, 1)] ∧
      (CollectDeltaByInt intSize ro kazoe (DecrementAsyncByInt kazoe n emptyWorld).2).1.deltaMap =
        some [(n, -1)]) ∧
    (∀ (kazoe : kazoeImpl) (ro : RangeOrder) (n : Int), kazoe.QueueName ≠ "" →
      -2 ^ 63 ≤ n → n < 2 ^ 63 →
      (CollectDeltaByInt64 intSize ro kazoe
        (IncrementAsyncByInt64 kazoe n emptyWorld).2).1.deltaMap = some [(n, 1)] ∧
      (CollectDeltaByInt64 intSize ro kazoe
        (DecrementAsyncByInt64 kazoe n emptyWorld).2).1.deltaMap = some [(n, -1)]) := by
  have h64 : ∀ n : Int, -2 ^ 63 ≤ n → n < 2 ^ 63 →
      strconv.ParseInt intSize (strconv.FormatInt n) 64 = .ok n :=
    fun n h1 h2 => ParseInt_FormatInt intSize 64 64 n rfl (Or.inr rfl) h1 h2
  refine ⟨fun n h1 h2 => Atoi_Itoa intSize hsize n h1 h2, h64, ?_, ?_, ?_, ?_⟩
  · intro a b ha1 ha2 hb1 hb2 hab
    have e1 := Atoi_Itoa intSize hsize a ha1 ha2
    have e2 := Atoi_Itoa intSize hsize b hb1 hb2
    rw [hab, e2] at e1
    exact (Except.ok.inj e1).symm
  · intro a b ha1 ha2 hb1 hb2 hab
    have e1 := h64 a ha1 ha2
    have e2 := h64 b hb1 hb2
    rw [hab, e2] at e1
    exact (Except.ok.inj e1).symm
  · intro kazoe ro n hq h1 h2
    constructor
    · exact collectTyped_single (strconv.Atoi intSize) ro kazoe _
        ⟨0, strconv.Itoa n, "++", "PULL"⟩ n 1 hq (unavailable_after_increment kazoe _ hq)
        (visible_after_increment kazoe _ hq) (aggregate_single_increment _ _ _)
        (Atoi_Itoa intSize hsize n h1 h2)
    · exact collectTyped_single (strconv.Atoi intSize) ro kazoe _
        ⟨0, strconv.Itoa n, "--", "PULL"⟩ n (-1) hq (unavailable_after_decrement kazoe _ hq)
        (visible_after_decrement kazoe _ hq) (aggregate_single_decrement _ _ _)
        (Atoi_Itoa intSize hsize n h1 h2)
  · intro kazoe ro n hq h1 h2
    constructor
    · exact collectTyped_single (fun k => strconv.ParseInt intSize k 64) ro kazoe _
        ⟨0, strconv.FormatInt n, "++", "PULL"⟩ n 1 hq (unavailable_after_increment kazoe _ hq)
        (visible_after_increment kazoe _ hq) (aggregate_single_increment _ _ _)
        (h64 n h1 h2)
    · exact collectTyped_single (fun k => strconv.ParseInt intSize k 64) ro kazoe _
        ⟨0, strconv.FormatInt n, "--", "PULL"⟩ n (-1) hq (unavailable_after_decrement kazoe _ hq)
        (visible_after_decrement kazoe _ hq) (aggregate_single_decrement _ _ _)
        (h64 n h1 h2)

/-- C8 on a 64-bit platform, at the smallest `int64` and at 1205. -/
theorem C8_witness :
    ((64 : Nat) = 32 ∨ (64 : Nat) = 64) ∧
    strconv.Itoa (-9223372036854775808) = "-9223372036854775808" ∧
    strconv.Atoi 64 (strconv.Itoa (-9223372036854775808)) = .ok (-9223372036854775808) ∧
    strconv.ParseInt 64 (strconv.FormatInt 1205) 64 = .ok 1205 :=
  ⟨Or.inr rfl, by decide,
    (C8_integer_identifiers_round_trip 64 (Or.inr rfl)).1 (-9223372036854775808)
      (by norm_num) (by norm_num),
    (C8_integer_identifiers_round_trip 64 (Or.inr rfl)).2.1 1205 (by norm_num) (by norm_num)⟩

end aekazoe
